import Mathlib

/-!
Verification of the RecommendedRevisionsTaqastaDiff comparison engine.

This file gives a shallow embedding of the core logic of the repository:

* src/src/comparer.py (class YamlComparer): path cleaning, repository-URL
  normalization and equivalence, and the four section comparers feeding the
  report assembled by YamlComparer.compare;
* src/src/fetcher.py (YamlFetcher._extract_version_from_yaml): the MediaWiki
  version heuristic.

Parsed YAML values are modelled by the inductive type Yaml below.  Python
strings are Lean String, Python ints are Lean Int, YAML null is Yaml.null.
Python dicts (YAML mappings) are association lists; the code only builds
dicts with unique keys (Python dicts cannot carry duplicates), and lookups
here mirror dict access.  Floating point values are not modelled.

The external DeepDiff library (called with ignore_order=True) is modelled
from the specification text, which describes it as "a deep, order-insensitive
diff reporting: changed scalar values with old/new, type changes, added or
removed mapping keys, added/removed sequence elements".  Sequences are
compared as multisets and contribute only added/removed element counts (the
comparer renders iterable changes through len(changes) only), mapping keys
are compared per key, and scalars by equality.  Iteration order of diff
entries, of Python set iteration and of dict iteration is modelled
canonically (sorted or source order); the comparer only ever iterates sets
through sorted(...), so this choice is observationally irrelevant except for
the unspecified ordering inside rendered step lists.
-/

/-- A parsed YAML value (the Python object trees handed to YamlComparer). -/
inductive Yaml where
  | null : Yaml
  | str (s : String) : Yaml
  | int (n : Int) : Yaml
  | bool (b : Bool) : Yaml
  | list (xs : List Yaml) : Yaml
  | map (entries : List (String × Yaml)) : Yaml
deriving Repr

mutual

/-- Structural equality on Yaml values (Python ==). -/
def Yaml.beq : Yaml → Yaml → Bool
  | .null, .null => true
  | .str a, .str b => a == b
  | .int a, .int b => a == b
  | .bool a, .bool b => a == b
  | .list xs, .list ys => Yaml.beqList xs ys
  | .map xs, .map ys => Yaml.beqMap xs ys
  | _, _ => false

def Yaml.beqList : List Yaml → List Yaml → Bool
  | [], [] => true
  | x :: xs, y :: ys => Yaml.beq x y && Yaml.beqList xs ys
  | _, _ => false

def Yaml.beqMap : List (String × Yaml) → List (String × Yaml) → Bool
  | [], [] => true
  | (k, v) :: xs, (l, w) :: ys => k == l && Yaml.beq v w && Yaml.beqMap xs ys
  | _, _ => false

end

mutual

theorem Yaml.beq_iff : ∀ a b : Yaml, Yaml.beq a b = true ↔ a = b
  | .null, b => by cases b <;> simp [Yaml.beq]
  | .str a, b => by cases b <;> simp [Yaml.beq]
  | .int a, b => by cases b <;> simp [Yaml.beq]
  | .bool a, b => by cases b <;> simp [Yaml.beq]
  | .list xs, b => by
      cases b <;> simp [Yaml.beq]
      exact Yaml.beqList_iff xs _
  | .map xs, b => by
      cases b <;> simp [Yaml.beq]
      exact Yaml.beqMap_iff xs _

theorem Yaml.beqList_iff : ∀ xs ys : List Yaml, Yaml.beqList xs ys = true ↔ xs = ys
  | [], ys => by cases ys <;> simp [Yaml.beqList]
  | x :: xs, ys => by
      cases ys with
      | nil => simp [Yaml.beqList]
      | cons y ys =>
          simp [Yaml.beqList, Yaml.beq_iff x y, Yaml.beqList_iff xs ys]

theorem Yaml.beqMap_iff : ∀ xs ys : List (String × Yaml), Yaml.beqMap xs ys = true ↔ xs = ys
  | [], ys => by cases ys <;> simp [Yaml.beqMap]
  | (k, v) :: xs, ys => by
      cases ys with
      | nil => simp [Yaml.beqMap]
      | cons y ys =>
          obtain ⟨l, w⟩ := y
          simp [Yaml.beqMap, Yaml.beq_iff v w, Yaml.beqMap_iff xs ys]

end

instance : DecidableEq Yaml := fun a b =>
  decidable_of_iff (Yaml.beq a b = true) (Yaml.beq_iff a b)

/-- An attribute mapping (the per-item data dict, e.g. commit/repository/...). -/
abbrev AttrMap := List (String × Yaml)

/-- One element of an extensions/skins sequence: a mapping name → attributes. -/
abbrev Item := List (String × AttrMap)

/-- Dict lookup (first binding wins, as in a Python dict, whose keys are unique). -/
def lookupY {α : Type} (m : List (String × α)) (k : String) : Option α :=
  (m.find? (fun p => p.1 == k)).map (fun p => p.2)

/-- Dict lookup with Python None as fallback (dict.get default). -/
def lookupD (m : AttrMap) (k : String) : Yaml :=
  (lookupY m k).getD .null

/-- Keys of an association list, in source order. -/
def keysOf {α : Type} (m : List (String × α)) : List String :=
  m.map (fun p => p.1)

/-- Insert or overwrite a binding, as Python dict assignment d[k] = v. -/
def dictInsert {α : Type} (m : List (String × α)) (k : String) (v : α) : List (String × α) :=
  if m.any (fun p => p.1 == k) then
    m.map (fun p => if p.1 == k then (k, v) else p)
  else
    m ++ [(k, v)]

/-- Flattening of a "list of singleton maps" section into one dict, as the
dict comprehension in comparer.py lines 121-124 / 311-314; later entries
overwrite earlier ones. -/
def flattenItems (items : List Item) : List (String × AttrMap) :=
  items.foldl (fun d item => item.foldl (fun d p => dictInsert d p.1 p.2) d) []

/-- Code-point lexicographic string order (Python str comparison used by sorted). -/
def strLeb (a b : String) : Bool := decide (a.data ≤ b.data)

/-- Python sorted(someSet): the distinct members in ascending order. -/
def sortedUniq (l : List String) : List String :=
  List.insertionSort (fun a b => strLeb a b) l.dedup

/-- A single-quote character, used by DeepDiff paths and Python repr. -/
def sqc : Char := Char.ofNat 39

/-- A double-quote character. -/
def dqc : Char := Char.ofNat 34

/-- First index at which pat occurs in cs (Python str.find, as an Option). -/
def findSubAux : List Char → List Char → Nat → Option Nat
  | [], pat, i => if pat.isEmpty then some i else none
  | c :: cs, pat, i =>
      if pat.isPrefixOf (c :: cs) then some i else findSubAux cs pat (i + 1)

def findSub (cs pat : List Char) : Option Nat := findSubAux cs pat 0

/-- Python substring containment test (pat in cs). -/
def containsSub (cs pat : List Char) : Bool := (findSub cs pat).isSome

/-- The characters of the literal root prefix used by DeepDiff paths. -/
def rootChars : List Char := ['r', 'o', 'o', 't']

/-- The single-quote character as a one-character string. -/
def squo : String := String.mk [sqc]

namespace YamlComparer

/-- YamlComparer._clean_diff_path (comparer.py lines 11-38), translated
statement by statement.  Python falls off the end of the quoted-bracket
branch without a return when the guard end_quote > prefix_len fails, which
yields None; the result type is therefore Option String. -/
def clean_diff_path (path : String) : Option String :=
  let cs := path.data
  if rootChars.isPrefixOf cs then
    if ((rootChars ++ ['[', sqc]).isPrefixOf cs && containsSub cs [sqc, ']'])
        || ((rootChars ++ ['[', dqc]).isPrefixOf cs && containsSub cs [dqc, ']']) then
      let pq : List Char × Nat :=
        if (rootChars ++ ['[', sqc]).isPrefixOf cs then ([sqc, ']'], 6) else ([dqc, ']'], 6)
      let endQuote := (findSub cs pq.1).getD 0
      let prefixLen := pq.2
      if endQuote > prefixLen then
        let fieldName := (cs.drop prefixLen).take (endQuote - prefixLen)
        let remaining := cs.drop (endQuote + 2)
        some (String.mk (fieldName ++ remaining))
      else
        none
    else if (rootChars ++ ['[']).isPrefixOf cs && cs.getLast? == some ']' then
      some (String.mk ((cs.drop 5).dropLast))
    else if (rootChars ++ ['.']).isPrefixOf cs then
      some (String.mk (cs.drop 5))
    else
      some (String.mk (cs.drop 4))
  else
    some path

end YamlComparer

/-- The path-cleaning rules exactly as the claim states them, in priority
order: (1) a quoted-bracket root prefix with matching quote style is stripped
at the first closing quote-bracket; (2) root[N] with a pure index and no
trailing content becomes N; (3) root.X becomes X; (4) any other
root-prefixed string loses its leading four characters; (5) anything else
passes through.  The claim presents the function as total on strings. -/
def cleanDiffPathClaim (path : String) : String :=
  let cs := path.data
  if (rootChars ++ ['[', sqc]).isPrefixOf cs && containsSub cs [sqc, ']'] then
    let endQuote := (findSub cs [sqc, ']']).getD 0
    String.mk ((cs.drop 6).take (endQuote - 6) ++ cs.drop (endQuote + 2))
  else if (rootChars ++ ['[', dqc]).isPrefixOf cs && containsSub cs [dqc, ']'] then
    let endQuote := (findSub cs [dqc, ']']).getD 0
    String.mk ((cs.drop 6).take (endQuote - 6) ++ cs.drop (endQuote + 2))
  else if (rootChars ++ ['[']).isPrefixOf cs && cs.getLast? == some ']'
      && (!((cs.drop 5).dropLast).isEmpty && ((cs.drop 5).dropLast).all Char.isDigit) then
    String.mk ((cs.drop 5).dropLast)
  else if (rootChars ++ ['.']).isPrefixOf cs then
    String.mk (cs.drop 5)
  else if rootChars.isPrefixOf cs then
    String.mk (cs.drop 4)
  else
    path

/-- The amended path-cleaning rules: as the claim, except that (a) the
quoted-bracket rule returns no result when the first closing quote-bracket
does not lie strictly beyond the opening prefix, and (b) the bracket rule
applies to every root[...]-ending-in-bracket string, not only pure indices,
stripping the prefix root[ and the final ] regardless of the content in
between. -/
def cleanDiffPathAmended (path : String) : Option String :=
  let cs := path.data
  if (rootChars ++ ['[', sqc]).isPrefixOf cs && containsSub cs [sqc, ']'] then
    let endQuote := (findSub cs [sqc, ']']).getD 0
    if endQuote > 6 then
      some (String.mk ((cs.drop 6).take (endQuote - 6) ++ cs.drop (endQuote + 2)))
    else
      none
  else if (rootChars ++ ['[', dqc]).isPrefixOf cs && containsSub cs [dqc, ']'] then
    let endQuote := (findSub cs [dqc, ']']).getD 0
    if endQuote > 6 then
      some (String.mk ((cs.drop 6).take (endQuote - 6) ++ cs.drop (endQuote + 2)))
    else
      none
  else if (rootChars ++ ['[']).isPrefixOf cs && cs.getLast? == some ']' then
    some (String.mk ((cs.drop 5).dropLast))
  else if (rootChars ++ ['.']).isPrefixOf cs then
    some (String.mk (cs.drop 5))
  else if rootChars.isPrefixOf cs then
    some (String.mk (cs.drop 4))
  else
    some path

example : YamlComparer.clean_diff_path ("root[" ++ squo ++ "commit" ++ squo ++ "]") = some "commit" := by decide
example : YamlComparer.clean_diff_path "root[0]" = some "0" := by decide
example : YamlComparer.clean_diff_path "root.field" = some "field" := by decide
example : YamlComparer.clean_diff_path "field" = some "field" := by decide
example : YamlComparer.clean_diff_path "root[0][1]" = some "0][1" := by decide
example : cleanDiffPathClaim "root[0][1]" = "[0][1]" := by decide

/-- Python s.endswith(pat). -/
def pyEndsWith (s pat : String) : Bool := pat.data.isSuffixOf s.data

/-- Python s[:-n] (for n at most the length; the code only strips matched suffixes). -/
def dropR (s : String) (n : Nat) : String := String.mk (s.data.take (s.data.length - n))

/-- Python truthiness of an optional string: None and the empty string are falsy. -/
def pyFalsyStr (r : Option String) : Bool := r == none || r == some ""

namespace YamlComparer

/-- YamlComparer._normalize_repo_url (comparer.py lines 40-53). -/
def normalize_repo_url (url : String) : String :=
  if url = "" then url
  else
    let url1 := if pyEndsWith url "/" then dropR url 1 else url
    if pyEndsWith url1 ".git" then dropR url1 4 else url1

/-- YamlComparer._repos_are_equivalent (comparer.py lines 55-63).  Python None
is modelled as Option.none. -/
def repos_are_equivalent (repo1 repo2 : Option String) : Bool :=
  if pyFalsyStr repo1 && pyFalsyStr repo2 then true
  else if pyFalsyStr repo1 || pyFalsyStr repo2 then false
  else normalize_repo_url (repo1.getD "") == normalize_repo_url (repo2.getD "")

end YamlComparer

/-- Normalization as the claim words it: strip exactly one trailing slash if
present, then strip a trailing .git if present, in that order. -/
def normalizeRepoUrlSpec (url : String) : String :=
  let u1 := if pyEndsWith url "/" then dropR url 1 else url
  if pyEndsWith u1 ".git" then dropR u1 4 else u1

/-- Empty/absent repository value as the claim words it: null or empty string. -/
def emptyAbsent : Option String → Bool
  | none => true
  | some s => s = ""

/-- Equivalence as the claim words it: both empty/absent, or neither
empty/absent and equal normalized forms. -/
def reposAreEquivalentSpec (u v : Option String) : Bool :=
  (emptyAbsent u && emptyAbsent v)
    || (!emptyAbsent u && !emptyAbsent v
        && normalizeRepoUrlSpec (u.getD "") == normalizeRepoUrlSpec (v.getD ""))

/-- Python str.split("."). -/
def pySplitDot (s : String) : List String := go s.data []
where
  go : List Char → List Char → List String
    | [], acc => [String.mk acc.reverse]
    | c :: cs, acc => if c = '.' then String.mk acc.reverse :: go cs [] else go cs (c :: acc)

/-- The keys probed by the version heuristic (fetcher.py line 96). -/
def versionKeys : List String := ["version", "mediawiki_version", "mw_version", "mediawiki"]

/-- YamlFetcher.DEFAULT_MW_VERSION (fetcher.py line 18). -/
def defaultMwVersion : String := "1.43"

namespace YamlFetcher

/-- The key loop of YamlFetcher._extract_version_from_yaml (fetcher.py lines
96-116).  A string value with at least two dot-separated components returns
the first two; other string values fall through to the next key, as do
values that are neither strings nor numbers.  Python bool is a subclass of
int, so bools take the numeric branch and are stringified as True/False.
Floats are not modelled. -/
def extract_version_go (data : List (String × Yaml)) : List String → String
  | [] => defaultMwVersion
  | key :: rest =>
    match lookupY data key with
    | some version =>
      match version with
      | .str s =>
          let parts := pySplitDot s
          if parts.length ≥ 2 then (parts.getD 0 "") ++ "." ++ (parts.getD 1 "")
          else extract_version_go data rest
      | .int n =>
          let vs := toString n
          if containsSub vs.data ['.'] then vs else vs ++ ".0"
      | .bool b =>
          let vs := if b then "True" else "False"
          if containsSub vs.data ['.'] then vs else vs ++ ".0"
      | _ => extract_version_go data rest
    | none => extract_version_go data rest

/-- YamlFetcher._extract_version_from_yaml (fetcher.py lines 88-116). -/
def extract_version_from_yaml (data : List (String × Yaml)) : String :=
  extract_version_go data versionKeys

end YamlFetcher

/-- Usability of one value under the version heuristic, as the claim words
the per-value rules: a string yields its first two dot-separated components
when it has at least two; a numeric value is stringified, with ".0" appended
when no decimal point is present; everything else is unusable. -/
def usableVersion : Yaml → Option String
  | .str s =>
      let parts := pySplitDot s
      if parts.length ≥ 2 then some ((parts.getD 0 "") ++ "." ++ (parts.getD 1 "")) else none
  | .int n =>
      let vs := toString n
      some (if containsSub vs.data ['.'] then vs else vs ++ ".0")
  | .bool b =>
      let vs := if b then "True" else "False"
      some (if containsSub vs.data ['.'] then vs else vs ++ ".0")
  | _ => none

/-- The amended version heuristic: the first key, in the fixed probe order,
whose value is present and usable decides the result; unusable values fall
through to later keys; the default applies when no key has a usable value. -/
def extractVersionSpec (data : List (String × Yaml)) : String :=
  (versionKeys.filterMap (fun k => (lookupY data k).bind usableVersion)).headD defaultMwVersion

example : YamlFetcher.extract_version_from_yaml [("version", .str "1.43.0")] = "1.43" := by decide
example : YamlFetcher.extract_version_from_yaml [("mediawiki", .int 2)] = "2.0" := by decide
example : YamlFetcher.extract_version_from_yaml [] = "1.43" := by decide
example : YamlFetcher.extract_version_from_yaml [("version", .str "2"), ("mediawiki_version", .str "1.39.1")] = "1.39" := by decide
example : YamlComparer.repos_are_equivalent (some "https://h/r.git/") (some "https://h/r") = true := by decide
example : YamlComparer.repos_are_equivalent (some "https://h/r1") (some "https://h/r2") = false := by decide
example : YamlComparer.repos_are_equivalent none (some "") = true := by decide

/-- The result of a DeepDiff(left, right, ignore_order=True) call, grouped by
change type as the library groups it.  The comparer renders iterable changes
only through len(changes), so added/removed sequence elements are recorded as
counts. -/
structure DeepDiffResult where
  values_changed : List (String × Yaml × Yaml) := []
  type_changes : List (String × String × String) := []
  dictionary_item_added : List String := []
  dictionary_item_removed : List String := []
  iterable_item_added : Nat := 0
  iterable_item_removed : Nat := 0
deriving Repr, DecidableEq

def DeepDiffResult.append (a b : DeepDiffResult) : DeepDiffResult where
  values_changed := a.values_changed ++ b.values_changed
  type_changes := a.type_changes ++ b.type_changes
  dictionary_item_added := a.dictionary_item_added ++ b.dictionary_item_added
  dictionary_item_removed := a.dictionary_item_removed ++ b.dictionary_item_removed
  iterable_item_added := a.iterable_item_added + b.iterable_item_added
  iterable_item_removed := a.iterable_item_removed + b.iterable_item_removed

instance : Append DeepDiffResult := ⟨DeepDiffResult.append⟩

/-- Python bool(diff): a DeepDiff result is falsy when it records no change. -/
def DeepDiffResult.isEmpty (d : DeepDiffResult) : Bool :=
  d.values_changed.isEmpty && d.type_changes.isEmpty
    && d.dictionary_item_added.isEmpty && d.dictionary_item_removed.isEmpty
    && d.iterable_item_added == 0 && d.iterable_item_removed == 0

/-- The Python type name of a value, distinguishing exactly what type(x)
distinguishes on the modelled domain. -/
def Yaml.typeName : Yaml → String
  | .null => "NoneType"
  | .str _ => "str"
  | .int _ => "int"
  | .bool _ => "bool"
  | .list _ => "list"
  | .map _ => "dict"

/-- How an f-string renders a Python type object. -/
def typeClassStr (v : Yaml) : String := "<class " ++ squo ++ v.typeName ++ squo ++ ">"

/-- DeepDiff path extension for a mapping key: p['k']. -/
def pathSub (p k : String) : String := p ++ "[" ++ squo ++ k ++ squo ++ "]"

/-- Distinct members of a list, keeping first occurrences in order (the key
iteration order of a Python dict built from this association list). -/
def dedupFirst : List String → List String := go []
where
  go : List String → List String → List String
    | _, [] => []
    | seen, k :: ks => if seen.contains k then go seen ks else k :: go (k :: seen) ks

mutual

/-- Model of the recursion inside DeepDiff (ignore_order=True), from the
specification of the library: values of different types are a type change;
mappings are compared per key, reporting added and removed keys; sequences
are compared as multisets, reporting only how many elements appear on one
side and not the other; remaining (scalar) values are a changed value when
not equal. -/
def diffVal : String → Yaml → Yaml → DeepDiffResult
  | p, .map m1, .map m2 =>
      diffEntries p m2 m1 []
        ++ { dictionary_item_added :=
              ((dedupFirst (keysOf m2)).filter (fun k => !(keysOf m1).contains k)).map
                (fun k => pathSub p k) }
  | _, .list l1, .list l2 =>
      { iterable_item_added := ((↑l2 : Multiset Yaml) - (↑l1 : Multiset Yaml)).card,
        iterable_item_removed := ((↑l1 : Multiset Yaml) - (↑l2 : Multiset Yaml)).card }
  | p, v1, v2 =>
      if v1.typeName ≠ v2.typeName then
        { type_changes := [(p, typeClassStr v1, typeClassStr v2)] }
      else if v1 = v2 then {} else { values_changed := [(p, v1, v2)] }

/-- Walk the left mapping in order (skipping duplicate keys), diffing each
key present on the right and reporting the others as removed. -/
def diffEntries : String → List (String × Yaml) → List (String × Yaml) → List String → DeepDiffResult
  | _, _, [], _ => {}
  | p, m2, (k, v) :: rest, seen =>
      if seen.contains k then diffEntries p m2 rest seen
      else
        (match lookupY m2 k with
         | some w => diffVal (pathSub p k) v w
         | none => { dictionary_item_removed := [pathSub p k] })
          ++ diffEntries p m2 rest (k :: seen)

end

/-- DeepDiff(left, right, ignore_order=True) on two attribute mappings, with
the root path spelled as the library spells it. -/
def deepDiff (d1 d2 : AttrMap) : DeepDiffResult :=
  diffVal "root" (.map d1) (.map d2)

mutual

/-- Python repr of a value. -/
def Yaml.pyRepr : Yaml → String
  | .null => "None"
  | .str s => squo ++ s ++ squo
  | .int n => toString n
  | .bool b => if b then "True" else "False"
  | .list xs => "[" ++ Yaml.pyReprList xs ++ "]"
  | .map m => "\x7b" ++ Yaml.pyReprMap m ++ "\x7d"

def Yaml.pyReprList : List Yaml → String
  | [] => ""
  | [x] => Yaml.pyRepr x
  | x :: xs => Yaml.pyRepr x ++ ", " ++ Yaml.pyReprList xs

def Yaml.pyReprMap : List (String × Yaml) → String
  | [] => ""
  | [(k, v)] => squo ++ k ++ squo ++ ": " ++ Yaml.pyRepr v
  | (k, v) :: xs => squo ++ k ++ squo ++ ": " ++ Yaml.pyRepr v ++ ", " ++ Yaml.pyReprMap xs

end

/-- Python str of a value, as rendered inside an f-string. -/
def Yaml.pyStr : Yaml → String
  | .str s => s
  | v => v.pyRepr

/-- Python truthiness of a value. -/
def Yaml.truthy : Yaml → Bool
  | .null => false
  | .str s => !(s == "")
  | .int n => !(n == 0)
  | .bool b => b
  | .list xs => !xs.isEmpty
  | .map m => !m.isEmpty

/-- f-string rendering of an optional value (Python None prints as None). -/
def pyShow : Option Yaml → String
  | none => "None"
  | some y => y.pyStr

/-- Python (x or default) rendered in an f-string: the default replaces
falsy values (None, empty string, ...). -/
def orDefaultStr (v : Option Yaml) (dflt : String) : String :=
  match v with
  | some y => if y.truthy then y.pyStr else dflt
  | none => dflt

/-- Python repr of a list of strings, e.g. ['step1', 'step2']. -/
def pyListRepr (xs : List String) : String :=
  "[" ++ String.intercalate ", " (xs.map (fun s => squo ++ s ++ squo)) ++ "]"

/-- Python str.lower (ASCII, which covers every name in the data model). -/
def pyLower (s : String) : String := String.mk (s.data.map Char.toLower)

/-- The raw additional-steps value of an item, data.get('additional steps'). -/
def stepsRaw (d : AttrMap) : Option Yaml := lookupY d "additional steps"

/-- The string elements of the additional-steps sequence.  The data model
types this field as a sequence of strings; set(...) on a non-sequence value
or on unhashable elements raises in Python and lies outside the modelled
domain, so non-string elements are dropped here. -/
def stepsList (d : AttrMap) : List String :=
  match stepsRaw d with
  | some (.list xs) =>
      xs.filterMap (fun x => match x with | .str s => some s | _ => none)
  | _ => []

/-- set(data.get('additional steps', [])), in canonical (sorted, distinct)
order; Python set iteration order is unspecified. -/
def stepsSet (d : AttrMap) : List String := sortedUniq (stepsList d)

/-- The guard ext_data.get('additional steps') and 'composer update' in
ext_data['additional steps'] (comparer.py line 398).  Python in on a string
value is substring containment; on non-sequence values it raises, outside
the modelled domain. -/
def stepsHasComposerUpdate (d : AttrMap) : Bool :=
  match stepsRaw d with
  | some y =>
      y.truthy && (match y with
        | .list xs => xs.any (fun x => decide (x = Yaml.str "composer update"))
        | .str s => containsSub s.data "composer update".data
        | _ => false)
  | none => false

/-- A configuration tree: the top-level dict with its four recognized
sections, each defaulting to an empty sequence (dict.get(key, [])). -/
structure ConfigTree where
  extensions : List Item := []
  skins : List Item := []
  packages : List (List (String × Yaml)) := []
  repositories : List (List (String × Yaml)) := []
deriving Repr, DecidableEq

namespace YamlComparer

/-- Equivalence of the two endpoints of a changed value at some path
(comparer.py lines 196, 270).  Python would raise AttributeError on a truthy
non-string argument, which cannot arise for well-typed repository values;
those out-of-domain cases count as not equivalent here. -/
def reposEquivY (a b : Yaml) : Bool :=
  match a, b with
  | .str x, .str y => repos_are_equivalent (some x) (some y)
  | _, _ => false

/-- Equivalence applied to dict.get results (comparer.py lines 180, 228): a
missing key or a null value is the Python None argument.  Truthy non-string
values raise in Python, outside the modelled domain. -/
def reposEquivOY (a b : Option Yaml) : Bool :=
  match a, b with
  | none, none => repos_are_equivalent none none
  | none, some y => (match y with
      | .null => repos_are_equivalent none none
      | .str s => repos_are_equivalent none (some s)
      | _ => false)
  | some y, none => (match y with
      | .null => repos_are_equivalent none none
      | .str s => repos_are_equivalent (some s) none
      | _ => false)
  | some y, some z => (match y, z with
      | .null, .null => repos_are_equivalent none none
      | .null, .str s => repos_are_equivalent none (some s)
      | .str s, .null => repos_are_equivalent (some s) none
      | .str s, .str t => repos_are_equivalent (some s) (some t)
      | _, _ => false)

/-- The rendered form of a cleaned path in an f-string (None prints as None). -/
def showCleanPath (p : String) : String :=
  match clean_diff_path p with
  | some s => s
  | none => "None"

/-- The four explicitly checked fields (comparer.py lines 178-183 and
251-256): commit, repository (modulo equivalence), branch, and the
additional-steps set. -/
def four_field_different (t c : AttrMap) : Bool :=
  decide (lookupY t "commit" ≠ lookupY c "commit")
    || !reposEquivOY (lookupY t "repository") (lookupY c "repository")
    || decide (lookupY t "branch" ≠ lookupY c "branch")
    || decide (stepsSet t ≠ stepsSet c)

/-- The scan of the remaining DeepDiff change types for a meaningful
difference (comparer.py lines 187-207): a changed value counts unless its
path is exactly repository and the endpoints are equivalent; every other
change type always counts. -/
def has_meaningful_other (diff : DeepDiffResult) : Bool :=
  diff.values_changed.any (fun e =>
      !(clean_diff_path e.1 == some "repository" && reposEquivY e.2.1 e.2.2))
    || !diff.type_changes.isEmpty
    || !diff.dictionary_item_added.isEmpty
    || !diff.dictionary_item_removed.isEmpty
    || diff.iterable_item_added != 0
    || diff.iterable_item_removed != 0

/-- Rendering of the DeepDiff details (comparer.py lines 261-291 for
extensions, 360-385 for skins).  skipEquivRepo is true on the extension
path, which skips equivalent repository value changes; the skin path renders
every entry. -/
def render_other_lines (skipEquivRepo : Bool) (diff : DeepDiffResult) : List String :=
  diff.values_changed.filterMap (fun e =>
      if skipEquivRepo && (clean_diff_path e.1 == some "repository") && reposEquivY e.2.1 e.2.2 then
        none
      else
        some ("          " ++ (showCleanPath e.1 ++ ": " ++ squo ++ e.2.1.pyStr ++ squo
          ++ " → " ++ squo ++ e.2.2.pyStr ++ squo)))
    ++ diff.type_changes.map (fun e =>
      "          " ++ (showCleanPath e.1 ++ ": type changed from " ++ e.2.1 ++ " to " ++ e.2.2))
    ++ diff.dictionary_item_added.map (fun pth => "          Added: " ++ showCleanPath pth)
    ++ diff.dictionary_item_removed.map (fun pth => "          Removed: " ++ showCleanPath pth)
    ++ (if diff.iterable_item_added != 0 then
        ["          Added " ++ (toString diff.iterable_item_added ++ " item(s) to iterable")]
      else [])
    ++ (if diff.iterable_item_removed != 0 then
        ["          Removed " ++ (toString diff.iterable_item_removed ++ " item(s) from iterable")]
      else [])

/-- The annotated listing of extensions present on one side only
(comparer.py lines 133-140 and 146-153). -/
def unique_ext_lines (marker : String) (names : List String) (dict : List (String × AttrMap)) : List String :=
  names.flatMap (fun ext =>
    let ext_data := (lookupY dict ext).getD []
    ("    " ++ marker ++ " " ++ ext)
      :: ((match lookupY ext_data "commit" with
          | some v => ["        commit: " ++ v.pyStr]
          | none => [])
        ++ (match lookupY ext_data "repository" with
          | some v => ["        repository: " ++ v.pyStr]
          | none => [])))

/-- The per-extension block of the different-configurations listing
(comparer.py lines 215-301), including the final pop of the header line when
nothing was rendered under it. -/
def ext_diff_lines (e : String × AttrMap × AttrMap × DeepDiffResult) : List String :=
  let ext := e.1
  let t := e.2.1
  let c := e.2.2.1
  let diff := e.2.2.2
  let tCommit := lookupY t "commit"
  let cCommit := lookupY c "commit"
  let commitLines :=
    if tCommit ≠ cCommit then
      ["        Taqasta commit: " ++ pyShow tCommit,
       "        Canasta commit: " ++ pyShow cCommit]
    else []
  let tRepo := lookupY t "repository"
  let cRepo := lookupY c "repository"
  let repoLines :=
    if !reposEquivOY tRepo cRepo then
      ["        Taqasta repo: " ++ orDefaultStr tRepo "wikimedia",
       "        Canasta repo: " ++ orDefaultStr cRepo "wikimedia"]
    else []
  let tBranch := lookupY t "branch"
  let cBranch := lookupY c "branch"
  let branchLines :=
    if tBranch ≠ cBranch then
      ["        Taqasta branch: " ++ orDefaultStr tBranch "REL1_43",
       "        Canasta branch: " ++ orDefaultStr cBranch "REL1_43"]
    else []
  let tSteps := stepsSet t
  let cSteps := stepsSet c
  let stepsLines :=
    if tSteps ≠ cSteps then
      (let onlyT := tSteps.filter (fun s => !cSteps.contains s)
       let onlyC := cSteps.filter (fun s => !tSteps.contains s)
       (if !onlyT.isEmpty then ["        Only in Taqasta: " ++ pyListRepr onlyT] else [])
         ++ (if !onlyC.isEmpty then ["        Only in Canasta: " ++ pyListRepr onlyC] else []))
    else []
  let hasMeaningful := four_field_different t c
  let otherLines := if !hasMeaningful then render_other_lines true diff else []
  if !hasMeaningful && otherLines.isEmpty then []
  else
    ("    ~ " ++ (ext ++ ":"))
      :: (commitLines ++ repoLines ++ branchLines ++ stepsLines
        ++ (if !hasMeaningful && !otherLines.isEmpty then
            "        Other differences:" :: otherLines
          else []))

/-- YamlComparer._compare_extensions (comparer.py lines 115-303). -/
def compare_extensions (taqasta_exts canasta_exts : List Item) : List String :=
  let taqasta_ext_dict := flattenItems taqasta_exts
  let canasta_ext_dict := flattenItems canasta_exts
  let taqasta_names := keysOf taqasta_ext_dict
  let canasta_names := keysOf canasta_ext_dict
  let only_taqasta := sortedUniq (taqasta_names.filter (fun n => !canasta_names.contains n))
  let only_canasta := sortedUniq (canasta_names.filter (fun n => !taqasta_names.contains n))
  let common := sortedUniq (taqasta_names.filter (fun n => canasta_names.contains n))
  let differences := common.filterMap (fun ext =>
    let t := (lookupY taqasta_ext_dict ext).getD []
    let c := (lookupY canasta_ext_dict ext).getD []
    let diff := deepDiff t c
    if !diff.isEmpty && (four_field_different t c || has_meaningful_other diff) then
      some (ext, t, c, diff)
    else none)
  (if !only_taqasta.isEmpty then
      "  Extensions only in Taqasta:" :: unique_ext_lines "+" only_taqasta taqasta_ext_dict
    else [])
    ++ (if !only_canasta.isEmpty then
      "  Extensions only in Canasta:" :: unique_ext_lines "-" only_canasta canasta_ext_dict
    else [])
    ++ (if !differences.isEmpty then
      "  Extensions with different configurations:" :: differences.flatMap ext_diff_lines
    else [])

/-- The per-skin block of the different-configurations listing (comparer.py
lines 347-385): the commit lines when commits differ, otherwise the full
DeepDiff details with no equivalence filtering. -/
def skin_diff_lines (e : String × AttrMap × AttrMap × DeepDiffResult) : List String :=
  let skin := e.1
  let t := e.2.1
  let c := e.2.2.1
  let diff := e.2.2.2
  let tCommit := lookupY t "commit"
  let cCommit := lookupY c "commit"
  ("    ~ " ++ (skin ++ ":"))
    :: ((if tCommit ≠ cCommit then
        ["        Taqasta commit: " ++ pyShow tCommit,
         "        Canasta commit: " ++ pyShow cCommit]
      else [])
      ++ (if tCommit = cCommit then
        "        Other differences:" :: render_other_lines false diff
      else []))

/-- YamlComparer._compare_skins (comparer.py lines 305-387). -/
def compare_skins (taqasta_skins canasta_skins : List Item) : List String :=
  let taqasta_skin_dict := flattenItems taqasta_skins
  let canasta_skin_dict := flattenItems canasta_skins
  let taqasta_names := keysOf taqasta_skin_dict
  let canasta_names := keysOf canasta_skin_dict
  let only_taqasta := sortedUniq (taqasta_names.filter (fun n => !canasta_names.contains n))
  let only_canasta := sortedUniq (canasta_names.filter (fun n => !taqasta_names.contains n))
  let common := sortedUniq (taqasta_names.filter (fun n => canasta_names.contains n))
  let differences := common.filterMap (fun skin =>
    let t := (lookupY taqasta_skin_dict skin).getD []
    let c := (lookupY canasta_skin_dict skin).getD []
    let diff := deepDiff t c
    if !diff.isEmpty then some (skin, t, c, diff) else none)
  (if !only_taqasta.isEmpty then
      "  Skins only in Taqasta:" :: only_taqasta.map (fun skin => "    + " ++ skin)
    else [])
    ++ (if !only_canasta.isEmpty then
      "  Skins only in Canasta:" :: only_canasta.map (fun skin => "    - " ++ skin)
    else [])
    ++ (if !differences.isEmpty then
      "  Skins with different configurations:" :: differences.flatMap skin_diff_lines
    else [])

/-- tp.get('name', '').lower() (comparer.py line 413).  A non-string name
raises in Python, outside the modelled domain. -/
def tpLowName (tp : List (String × Yaml)) : String :=
  match lookupY tp "name" with
  | some (Yaml.str s) => pyLower s
  | _ => ""

/-- The set of Canasta composer packages (comparer.py lines 395-399): the
lowercased names of extensions whose additional steps contain the literal
string composer update. -/
def canasta_composer_packages (canasta_exts : List Item) : List String :=
  canasta_exts.flatMap (fun ext_item =>
    ext_item.filterMap (fun p =>
      if stepsHasComposerUpdate p.2 then some (pyLower p.1) else none))

/-- The lowercased Taqasta package names (comparer.py lines 401-404). -/
def taqasta_package_names_of (taqasta_packages : List (List (String × Yaml))) : List String :=
  taqasta_packages.filterMap (fun pkg =>
    match lookupY pkg "name" with
    | some (Yaml.str s) => some (pyLower s)
    | _ => none)

/-- The rendered version of a package entry, tp.get('version', 'dev')
(comparer.py line 414). -/
def pkg_version_label (tp : List (String × Yaml)) : String :=
  match lookupY tp "version" with | some v => v.pyStr | none => "dev"

/-- YamlComparer._compare_packages (comparer.py lines 389-425). -/
def compare_packages (taqasta_packages : List (List (String × Yaml)))
    (canasta_exts : List Item) : List String :=
  let canasta_packages := canasta_composer_packages canasta_exts
  let taqasta_package_names := taqasta_package_names_of taqasta_packages
  let only_taqasta := sortedUniq (taqasta_package_names.filter (fun n => !canasta_packages.contains n))
  let only_canasta := sortedUniq (canasta_packages.filter (fun n => !taqasta_package_names.contains n))
  (if !only_taqasta.isEmpty then
      "  Composer packages only in Taqasta:" :: only_taqasta.flatMap (fun pkg =>
        match taqasta_packages.find? (fun tp => tpLowName tp == pkg) with
        | some tp =>
            ["    + " ++ (pyShow (lookupY tp "name") ++ (" @ " ++ pkg_version_label tp))]
        | none => [])
    else [])
    ++ (if !only_canasta.isEmpty then
      "  Extensions requiring composer update only in Canasta:"
        :: only_canasta.map (fun ext => "    - " ++ ext)
    else [])

/-- YamlComparer._compare_repositories (comparer.py lines 427-481).  URL and
repository values are strings in the data model; null or other values would
make Python raise inside sorted() or the equivalence check. -/
def compare_repositories (taqasta_repos : List (List (String × Yaml)))
    (canasta_yaml : ConfigTree) : List String :=
  let taqasta_repo_urls := taqasta_repos.filterMap (fun repo =>
    match lookupY repo "url" with | some (Yaml.str s) => some s | _ => none)
  let canasta_repo_urls := (canasta_yaml.extensions ++ canasta_yaml.skins).flatMap (fun item =>
    item.filterMap (fun p =>
      match lookupY p.2 "repository" with | some (Yaml.str s) => some s | _ => none))
  let only_taqasta := taqasta_repo_urls.filter (fun t =>
    !canasta_repo_urls.any (fun c => repos_are_equivalent (some t) (some c)))
  let only_canasta := canasta_repo_urls.filter (fun c =>
    !taqasta_repo_urls.any (fun t => repos_are_equivalent (some t) (some c)))
  (if !only_taqasta.isEmpty then
      "  Custom repositories only in Taqasta:"
        :: (sortedUniq only_taqasta).map (fun repo => "    + " ++ repo)
    else [])
    ++ (if !only_canasta.isEmpty then
      "  Custom repositories only in Canasta:"
        :: (sortedUniq only_canasta).map (fun repo => "    - " ++ repo)
    else [])

/-- The header of every report (comparer.py lines 68-72): the comparing
line, the MediaWiki version line when the argument is truthy, and a rule of
70 equals signs. -/
def header_lines (taqasta_ref canasta_ref : String) (mw_version : Option String) : List String :=
  ("Comparing Taqasta (" ++ (taqasta_ref ++ (") vs Canasta (" ++ (canasta_ref ++ ")"))))
    :: ((match mw_version with
        | some v => if v = "" then [] else ["MediaWiki Version: " ++ v]
        | none => [])
      ++ [String.mk (List.replicate 70 '=')])

/-- YamlComparer.compare (comparer.py lines 65-113) as the list of report
lines; each section string is non-empty exactly when its line list is
non-empty, and the final report joins everything with newlines. -/
def compare_lines (taqasta_yaml canasta_yaml : ConfigTree)
    (taqasta_ref canasta_ref : String) (mw_version : Option String) : List String :=
  let ext_diff := compare_extensions taqasta_yaml.extensions canasta_yaml.extensions
  let skin_diff := compare_skins taqasta_yaml.skins canasta_yaml.skins
  let pkg_diff := compare_packages taqasta_yaml.packages canasta_yaml.extensions
  let repo_diff := compare_repositories taqasta_yaml.repositories canasta_yaml
  header_lines taqasta_ref canasta_ref mw_version
    ++ (if !ext_diff.isEmpty then "" :: "EXTENSIONS:" :: ext_diff else [])
    ++ (if !skin_diff.isEmpty then "" :: "SKINS:" :: skin_diff else [])
    ++ (if !pkg_diff.isEmpty then "" :: "COMPOSER PACKAGES:" :: pkg_diff else [])
    ++ (if !repo_diff.isEmpty then "" :: "REPOSITORIES:" :: repo_diff else [])
    ++ (if ext_diff.isEmpty && skin_diff.isEmpty && pkg_diff.isEmpty && repo_diff.isEmpty then
        ["", "No differences found!"]
      else [])

/-- The report string returned by YamlComparer.compare. -/
def compare (taqasta_yaml canasta_yaml : ConfigTree)
    (taqasta_ref canasta_ref : String) (mw_version : Option String) : String :=
  String.intercalate "\n" (compare_lines taqasta_yaml canasta_yaml taqasta_ref canasta_ref mw_version)

end YamlComparer

def listEquivVal (v w : Yaml) : Bool :=
  match v, w with
  | .list xs, .list ys => decide ((↑xs : Multiset Yaml) = (↑ys : Multiset Yaml))
  | _, _ => decide (v = w)

def stepsEquivVal (k : String) (v w : Yaml) : Bool :=
  if k = "additional steps" then listEquivVal v w else decide (v = w)

def pairRelB {α : Type} (r : String → α → α → Bool) : List (String × α) → List (String × α) → Bool
  | [], [] => true
  | (k, v) :: xs, (l, w) :: ys => k == l && r k v w && pairRelB r xs ys
  | _, _ => false

def attrRelB (d d2 : AttrMap) : Bool := pairRelB stepsEquivVal d d2

def itemRelB (d d2 : List (String × AttrMap)) : Bool := pairRelB (fun _ => attrRelB) d d2

def itemsRelB : List Item → List Item → Bool
  | [], [] => true
  | i :: xs, j :: ys => itemRelB i j && itemsRelB xs ys
  | _, _ => false

def treeRelB (t t2 : ConfigTree) : Bool :=
  itemsRelB t.extensions t2.extensions && itemsRelB t.skins t2.skins
    && decide (t.packages = t2.packages) && decide (t.repositories = t2.repositories)

def extDiffsOf (d c : List (String × AttrMap)) (names : List String) :
    List (String × AttrMap × AttrMap × DeepDiffResult) :=
  names.filterMap (fun ext =>
    let t := (lookupY d ext).getD []
    let cc := (lookupY c ext).getD []
    let diff := deepDiff t cc
    if !diff.isEmpty
        && (YamlComparer.four_field_different t cc || YamlComparer.has_meaningful_other diff) then
      some (ext, t, cc, diff)
    else none)

def skinDiffsOf (d c : List (String × AttrMap)) (names : List String) :
    List (String × AttrMap × AttrMap × DeepDiffResult) :=
  names.filterMap (fun skin =>
    let t := (lookupY d skin).getD []
    let cc := (lookupY c skin).getD []
    let diff := deepDiff t cc
    if !diff.isEmpty then some (skin, t, cc, diff) else none)

def extBody (d c : List (String × AttrMap)) : List String :=
  let taqasta_names := keysOf d
  let canasta_names := keysOf c
  let only_taqasta := sortedUniq (taqasta_names.filter (fun n => !canasta_names.contains n))
  let only_canasta := sortedUniq (canasta_names.filter (fun n => !taqasta_names.contains n))
  let common := sortedUniq (taqasta_names.filter (fun n => canasta_names.contains n))
  let differences := extDiffsOf d c common
  (if !only_taqasta.isEmpty then
      "  Extensions only in Taqasta:" :: YamlComparer.unique_ext_lines "+" only_taqasta d
    else [])
    ++ (if !only_canasta.isEmpty then
      "  Extensions only in Canasta:" :: YamlComparer.unique_ext_lines "-" only_canasta c
    else [])
    ++ (if !differences.isEmpty then
      "  Extensions with different configurations:"
        :: differences.flatMap YamlComparer.ext_diff_lines
    else [])

def skinBody (d c : List (String × AttrMap)) : List String :=
  let taqasta_names := keysOf d
  let canasta_names := keysOf c
  let only_taqasta := sortedUniq (taqasta_names.filter (fun n => !canasta_names.contains n))
  let only_canasta := sortedUniq (canasta_names.filter (fun n => !taqasta_names.contains n))
  let common := sortedUniq (taqasta_names.filter (fun n => canasta_names.contains n))
  let differences := skinDiffsOf d c common
  (if !only_taqasta.isEmpty then
      "  Skins only in Taqasta:" :: only_taqasta.map (fun skin => "    + " ++ skin)
    else [])
    ++ (if !only_canasta.isEmpty then
      "  Skins only in Canasta:" :: only_canasta.map (fun skin => "    - " ++ skin)
    else [])
    ++ (if !differences.isEmpty then
      "  Skins with different configurations:"
        :: differences.flatMap YamlComparer.skin_diff_lines
    else [])

def extCondOf (d c : List (String × AttrMap)) (x : String) : Bool :=
  let t := (lookupY d x).getD []
  let cc := (lookupY c x).getD []
  let diff := deepDiff t cc
  !diff.isEmpty
    && (YamlComparer.four_field_different t cc || YamlComparer.has_meaningful_other diff)

def skinCondOf (d c : List (String × AttrMap)) (x : String) : Bool :=
  !(deepDiff ((lookupY d x).getD []) ((lookupY c x).getD [])).isEmpty

def repoUrlsOfItem (item : Item) : List String :=
  item.filterMap (fun p =>
    match lookupY p.2 "repository" with | some (Yaml.str s) => some s | _ => none)

def repoBody (tr : List (List (String × Yaml))) (urls : List String) : List String :=
  let taqasta_repo_urls := tr.filterMap (fun repo =>
    match lookupY repo "url" with | some (Yaml.str s) => some s | _ => none)
  let only_taqasta := taqasta_repo_urls.filter (fun t =>
    !urls.any (fun c => YamlComparer.repos_are_equivalent (some t) (some c)))
  let only_canasta := urls.filter (fun c =>
    !taqasta_repo_urls.any (fun t => YamlComparer.repos_are_equivalent (some t) (some c)))
  (if !only_taqasta.isEmpty then
      "  Custom repositories only in Taqasta:"
        :: (sortedUniq only_taqasta).map (fun repo => "    + " ++ repo)
    else [])
    ++ (if !only_canasta.isEmpty then
      "  Custom repositories only in Canasta:"
        :: (sortedUniq only_canasta).map (fun repo => "    - " ++ repo)
    else [])

/-- C10: the path-cleaning function is not total over strings: on the input
root[''] the quoted-bracket branch is taken (the prefix matches and a
closing quote-bracket exists), the guard end_quote > prefix_len fails
because the first closing quote-bracket sits at the prefix boundary, no
return statement is reached, and Python yields None; the embedding returns
the no-result value there. -/
theorem c10_clean_diff_path_none_on_empty_field :
    YamlComparer.clean_diff_path ("root[" ++ squo ++ squo ++ "]") = none := by decide

/-- C5 counterexample: on the input root[0][1] the claimed rule list yields
[0][1] (rule 2 demands a pure index with no trailing content, so rule 4
strips the four characters root), but the code takes its bracket branch on
any root[...] string ending in a bracket and returns 0][1. -/
theorem c5_counterexample :
    YamlComparer.clean_diff_path "root[0][1]" ≠ some (cleanDiffPathClaim "root[0][1]")
    ∧ YamlComparer.clean_diff_path "root[0][1]" = some "0][1"
    ∧ cleanDiffPathClaim "root[0][1]" = "[0][1]" := by decide

theorem prefix_app_bool (l1 l2 cs : List Char) (h : (l1 ++ l2).isPrefixOf cs = true) :
    l1.isPrefixOf cs = true := by
  rw [List.isPrefixOf_iff_prefix] at h ⊢
  exact (List.prefix_append l1 l2).trans h

theorem quote_prefixes_exclusive (cs : List Char)
    (h1 : (rootChars ++ ['[', sqc]).isPrefixOf cs = true)
    (h2 : (rootChars ++ ['[', dqc]).isPrefixOf cs = true) : False := by
  rw [List.isPrefixOf_iff_prefix] at h1 h2
  have hlen : (rootChars ++ ['[', sqc]).length ≤ (rootChars ++ ['[', dqc]).length := by decide
  have heq := (List.prefix_of_prefix_length_le h1 h2 hlen).eq_of_length (by decide)
  simp [rootChars] at heq
  exact absurd heq (by decide)

theorem clean_eq_amended (s : String) :
    YamlComparer.clean_diff_path s = cleanDiffPathAmended s := by
  cases hr : rootChars.isPrefixOf s.data with
  | false =>
      have hfalse : ∀ l2 : List Char, (rootChars ++ l2).isPrefixOf s.data = false := by
        intro l2
        cases hx : (rootChars ++ l2).isPrefixOf s.data with
        | false => rfl
        | true => exact absurd (prefix_app_bool _ _ _ hx) (by simp [hr])
      simp [YamlComparer.clean_diff_path, cleanDiffPathAmended, hr, hfalse]
  | true =>
      cases h1 : (rootChars ++ ['[', sqc]).isPrefixOf s.data with
      | true =>
          have h2 : (rootChars ++ ['[', dqc]).isPrefixOf s.data = false := by
            cases hx : (rootChars ++ ['[', dqc]).isPrefixOf s.data with
            | false => rfl
            | true => exact absurd (quote_prefixes_exclusive s.data h1 hx) (fun f => f)
          cases hc1 : containsSub s.data [sqc, ']'] with
          | true => simp [YamlComparer.clean_diff_path, cleanDiffPathAmended, hr, h1, h2, hc1]
          | false => simp [YamlComparer.clean_diff_path, cleanDiffPathAmended, hr, h1, h2, hc1]
      | false =>
          cases h2 : (rootChars ++ ['[', dqc]).isPrefixOf s.data with
          | true =>
              cases hc2 : containsSub s.data [dqc, ']'] with
              | true => simp [YamlComparer.clean_diff_path, cleanDiffPathAmended, hr, h1, h2, hc2]
              | false => simp [YamlComparer.clean_diff_path, cleanDiffPathAmended, hr, h1, h2, hc2]
          | false => simp [YamlComparer.clean_diff_path, cleanDiffPathAmended, hr, h1, h2]

/-- C5 amended: the path-cleaning function follows the claimed rule list with
two changes forced by the counterexample family: the quoted-bracket rule
yields no result when the first closing quote-bracket is not strictly beyond
the opening prefix, and the bracket rule strips root[ and the final ] from
every remaining root[...]-ending-in-bracket string, pure index or not.  The
five concrete examples of the claim all hold. -/
theorem c5_amended_clean_diff_path_rules :
    (∀ s : String, YamlComparer.clean_diff_path s = cleanDiffPathAmended s)
    ∧ YamlComparer.clean_diff_path ("root[" ++ squo ++ "commit" ++ squo ++ "]") = some "commit"
    ∧ YamlComparer.clean_diff_path "root[0]" = some "0"
    ∧ YamlComparer.clean_diff_path "root.field" = some "field"
    ∧ YamlComparer.clean_diff_path ("root[" ++ squo ++ "steps" ++ squo ++ "][1]") = some "steps[1]"
    ∧ YamlComparer.clean_diff_path "field" = some "field" :=
  ⟨clean_eq_amended, by decide, by decide, by decide, by decide, by decide⟩

theorem normalize_eq_spec (s : String) :
    YamlComparer.normalize_repo_url s = normalizeRepoUrlSpec s := by
  by_cases h : s = ""
  · subst h; decide
  · simp [YamlComparer.normalize_repo_url, normalizeRepoUrlSpec, h]

theorem falsy_eq_emptyAbsent (u : Option String) : pyFalsyStr u = emptyAbsent u := by
  cases u with
  | none => rfl
  | some s =>
      by_cases h : s = ""
      · subst h; rfl
      · simp [pyFalsyStr, emptyAbsent, h]

theorem c2_main (u v : Option String) :
    YamlComparer.repos_are_equivalent u v = reposAreEquivalentSpec u v := by
  simp only [YamlComparer.repos_are_equivalent, reposAreEquivalentSpec,
    ← falsy_eq_emptyAbsent, ← normalize_eq_spec]
  cases hu : pyFalsyStr u <;> cases hv : pyFalsyStr v <;> simp [hu, hv]

theorem extract_go_eq (data : List (String × Yaml)) :
    ∀ ks, YamlFetcher.extract_version_go data ks
      = (ks.filterMap (fun k => (lookupY data k).bind usableVersion)).headD defaultMwVersion
  | [] => by simp [YamlFetcher.extract_version_go]
  | k :: rest => by
      cases hl : lookupY data k with
      | none =>
          simp [YamlFetcher.extract_version_go, hl, List.filterMap_cons, extract_go_eq data rest]
      | some v =>
          cases v with
          | str s =>
              by_cases hp : (pySplitDot s).length ≥ 2
              · simp [YamlFetcher.extract_version_go, hl, hp, usableVersion, List.filterMap_cons]
              · simp [YamlFetcher.extract_version_go, hl, hp, usableVersion, List.filterMap_cons,
                  extract_go_eq data rest]
          | int n => simp [YamlFetcher.extract_version_go, hl, usableVersion, List.filterMap_cons]
          | bool b => simp [YamlFetcher.extract_version_go, hl, usableVersion, List.filterMap_cons]
          | null =>
              simp [YamlFetcher.extract_version_go, hl, usableVersion, List.filterMap_cons,
                extract_go_eq data rest]
          | list xs =>
              simp [YamlFetcher.extract_version_go, hl, usableVersion, List.filterMap_cons,
                extract_go_eq data rest]
          | map m =>
              simp [YamlFetcher.extract_version_go, hl, usableVersion, List.filterMap_cons,
                extract_go_eq data rest]

/-- C2: the repository-URL equivalence predicate is characterized exactly as
the claim states it: two raw values are equivalent precisely when both are
empty/absent (null and empty string treated identically), or neither is and
their normalized forms agree, where normalization strips one trailing slash
and then a trailing .git; exactly one empty/absent value is never
equivalent.  The two concrete examples of the claim hold. -/
theorem c2_repos_are_equivalent_characterization :
    (∀ u v : Option String,
        YamlComparer.repos_are_equivalent u v = reposAreEquivalentSpec u v)
    ∧ YamlComparer.repos_are_equivalent (some "https://h/r.git/") (some "https://h/r") = true
    ∧ YamlComparer.repos_are_equivalent (some "https://h/r1") (some "https://h/r2") = false :=
  ⟨c2_main, by decide, by decide⟩

/-- C4 counterexample: a base configuration whose first present version key
is unusable (the string "2" has a single dot-separated component) does not
produce the default 1.43 as the claim states; the loop falls through to the
next key and returns 1.39 from mediawiki_version. -/
theorem c4_counterexample :
    lookupY [("version", Yaml.str "2"), ("mediawiki_version", Yaml.str "1.39.1")] "version"
      = some (Yaml.str "2")
    ∧ YamlFetcher.extract_version_from_yaml
        [("version", Yaml.str "2"), ("mediawiki_version", Yaml.str "1.39.1")] = "1.39"
    ∧ YamlFetcher.extract_version_from_yaml
        [("version", Yaml.str "2"), ("mediawiki_version", Yaml.str "1.39.1")] ≠ "1.43" := by
  decide

/-- C4 amended: the version-extraction function probes the keys version,
mediawiki_version, mw_version, mediawiki in order and returns the value
derived from the first key present with a usable value (a string keeps its
first two dot-separated components; a numeric value is stringified with ".0"
appended when it has no decimal point); keys that are absent or hold
unusable values fall through to later keys, and the default 1.43 is returned
only when no key has a usable value. -/
theorem c4_amended_extract_version :
    (∀ data : List (String × Yaml),
        YamlFetcher.extract_version_from_yaml data = extractVersionSpec data)
    ∧ YamlFetcher.extract_version_from_yaml [] = "1.43" :=
  ⟨fun data => extract_go_eq data versionKeys, by decide⟩

theorem DeepDiffResult.empty_append (d : DeepDiffResult) : ({} : DeepDiffResult) ++ d = d := by
  show DeepDiffResult.append {} d = d
  cases d
  simp [DeepDiffResult.append]

theorem DeepDiffResult.append_empty (d : DeepDiffResult) : d ++ ({} : DeepDiffResult) = d := by
  show DeepDiffResult.append d {} = d
  cases d
  simp [DeepDiffResult.append]

theorem lookupY_cons {α : Type} (k k2 : String) (v : α) (rest : List (String × α)) :
    lookupY ((k, v) :: rest) k2 = if k == k2 then some v else lookupY rest k2 := by
  by_cases h : (k == k2) = true <;> simp [lookupY, List.find?, h]

theorem mem_dedupFirst_go : ∀ (l seen : List String) (k : String), k ∈ dedupFirst.go seen l → k ∈ l := by
  intro l
  induction l with
  | nil => intro seen k h; simp [dedupFirst.go] at h
  | cons x rest ih =>
      intro seen k h
      rw [dedupFirst.go] at h
      by_cases hx : seen.contains x = true
      · rw [if_pos hx] at h
        exact List.mem_cons_of_mem x (ih seen k h)
      · rw [if_neg hx] at h
        rcases List.mem_cons.mp h with h | h
        · exact h ▸ List.mem_cons_self x rest
        · exact List.mem_cons_of_mem x (ih _ k h)

theorem contains_of_mem {l : List String} {k : String} (h : k ∈ l) : l.contains k = true := by
  simp [List.contains_eq_any_beq]
  exact h

mutual

theorem diffVal_self : ∀ (v : Yaml) (p : String), diffVal p v v = {}
  | .null, p => by simp [diffVal]
  | .str s, p => by simp [diffVal]
  | .int n, p => by simp [diffVal]
  | .bool b, p => by simp [diffVal]
  | .list xs, p => by simp [diffVal]
  | .map m, p => by
      rw [diffVal]
      have hadd : ((dedupFirst (keysOf m)).filter (fun k => !(keysOf m).contains k)) = [] := by
        rw [List.filter_eq_nil_iff]
        intro k hk
        have hk2 : k ∈ dedupFirst.go [] (keysOf m) := hk
        simp
        exact mem_dedupFirst_go (keysOf m) [] k hk2
      rw [diffEntries_self m m [] p (fun _ _ => rfl), hadd]
      simp [DeepDiffResult.empty_append]

theorem diffEntries_self : ∀ (m1 m2 : List (String × Yaml)) (seen : List String) (p : String),
    (∀ k, seen.contains k = false → lookupY m2 k = lookupY m1 k) →
    diffEntries p m2 m1 seen = {}
  | [], m2, seen, p, h => by simp [diffEntries]
  | (k, v) :: rest, m2, seen, p, h => by
      rw [diffEntries]
      by_cases hs : seen.contains k = true
      · rw [if_pos hs]
        refine diffEntries_self rest m2 seen p (fun k2 hk2 => ?_)
        have hne : (k == k2) = false := by
          cases hkk : k == k2
          · rfl
          · exfalso
            have hkeq : k = k2 := by simpa using hkk
            rw [hkeq] at hs
            rw [hs] at hk2
            cases hk2
        rw [h k2 hk2, lookupY_cons, if_neg (by simp [hne])]
      · rw [if_neg hs]
        have hsf : seen.contains k = false := by
          cases hv : seen.contains k
          · rfl
          · exact absurd hv hs
        have hlk : lookupY m2 k = some v := by
          rw [h k hsf, lookupY_cons, if_pos (by simp)]
        have hrec : diffEntries p m2 rest (k :: seen) = {} := by
          refine diffEntries_self rest m2 (k :: seen) p (fun k2 hk2 => ?_)
          have hk2m : ¬(k2 = k ∨ k2 ∈ seen) := by
            intro hor
            rcases hor with h1 | h1
            · rw [h1] at hk2
              simp [List.contains_eq_any_beq, List.any_cons] at hk2
            · have : (k :: seen).contains k2 = true :=
                contains_of_mem (List.mem_cons_of_mem k h1)
              rw [this] at hk2
              cases hk2
          have hne : (k == k2) = false := by
            cases hkk : k == k2
            · rfl
            · exact absurd (Or.inl (by have := (beq_iff_eq.mp hkk).symm; exact this)) hk2m
          have hseen : seen.contains k2 = false := by
            cases hsk : seen.contains k2
            · rfl
            · refine absurd (Or.inr ?_) hk2m
              simpa [List.contains_eq_any_beq] using hsk
          rw [h k2 hseen, lookupY_cons, if_neg (by simp [hne])]
        rw [hlk]
        simp [diffVal_self v (pathSub p k), hrec, DeepDiffResult.empty_append]

end

theorem deepDiff_self (d : AttrMap) : deepDiff d d = {} := diffVal_self (.map d) "root"

theorem filter_not_mem_self (l : List String) :
    l.filter (fun n => !decide (n ∈ l)) = [] := by
  rw [List.filter_eq_nil_iff]
  intro n hn
  simp [hn]

theorem sortedUniq_nil : sortedUniq [] = [] := rfl

theorem isEmpty_empty_diff : ({} : DeepDiffResult).isEmpty = true := rfl

theorem compare_extensions_self (xs : List Item) :
    YamlComparer.compare_extensions xs xs = [] := by
  unfold YamlComparer.compare_extensions
  simp [deepDiff_self, filter_not_mem_self, sortedUniq_nil, DeepDiffResult.isEmpty]

theorem compare_skins_self (xs : List Item) :
    YamlComparer.compare_skins xs xs = [] := by
  unfold YamlComparer.compare_skins
  simp [deepDiff_self, filter_not_mem_self, sortedUniq_nil, DeepDiffResult.isEmpty]

/-- Bool predicate: no extension item carries a composer update step. -/
def noComposerSteps (items : List Item) : Bool :=
  items.all (fun item => item.all (fun p => !stepsHasComposerUpdate p.2))

/-- Bool predicate: no item carries a repository attribute. -/
def noRepositoryKeys (items : List Item) : Bool :=
  items.all (fun item => item.all (fun p => (lookupY p.2 "repository").isNone))

theorem compare_packages_empty (exts : List Item)
    (h : noComposerSteps exts = true) :
    YamlComparer.compare_packages [] exts = [] := by
  unfold YamlComparer.compare_packages
  have hcan : YamlComparer.canasta_composer_packages exts = [] := by
    rw [YamlComparer.canasta_composer_packages, List.flatMap_eq_nil_iff]
    intro item hitem
    rw [List.filterMap_eq_nil_iff]
    intro p hp
    have := (List.all_eq_true.mp ((List.all_eq_true.mp h) item hitem)) p hp
    simp at this
    simp [this]
  simp [hcan, YamlComparer.taqasta_package_names_of, sortedUniq_nil]

theorem compare_repositories_empty (c : ConfigTree)
    (h : noRepositoryKeys (c.extensions ++ c.skins) = true) :
    YamlComparer.compare_repositories [] c = [] := by
  unfold YamlComparer.compare_repositories
  simp only [List.filterMap_nil]
  simp
  constructor
  · intro x hx a b hab
    have := (List.all_eq_true.mp ((List.all_eq_true.mp h) x (List.mem_append_left _ hx))) (a, b) hab
    rw [Option.isNone_iff_eq_none] at this
    simp [this]
  · intro x hx a b hab
    have := (List.all_eq_true.mp ((List.all_eq_true.mp h) x (List.mem_append_right _ hx))) (a, b) hab
    rw [Option.isNone_iff_eq_none] at this
    simp [this]

theorem str_ne_of_take (x y : String) (p : List Char)
    (hy : y.data.take p.length = p) (hx : ¬ x.data.take p.length = p) : x ≠ y :=
  fun h => hx (by rw [h]; exact hy)

theorem take_pre (pre rest : String) :
    (pre ++ rest).data.take pre.data.length = pre.data := by
  rw [String.data_append]
  exact List.take_left _ _

theorem notMemHeaderAux (L r1 r2 : String) (mw : Option String)
    (h1 : ¬ L.data.take 19 = ("Comparing Taqasta (").data)
    (h2 : ¬ L.data.take 19 = ("MediaWiki Version: ").data)
    (h3 : L ≠ String.mk (List.replicate 70 '='))
    (h4 : L ≠ "") (h5 : L ≠ "No differences found!") :
    L ∉ YamlComparer.header_lines r1 r2 mw ++ ["", "No differences found!"] := by
  intro hmem
  rw [YamlComparer.header_lines.eq_def] at hmem
  simp at hmem
  rcases hmem with hm | hm
  · exact absurd (by rw [hm]; exact take_pre "Comparing Taqasta (" _) h1
  rcases hm with hm | hm
  · cases mw with
    | none => simp at hm
    | some v =>
        by_cases hv : v = ""
        · simp [hv] at hm
        · simp [hv] at hm
          exact absurd (by rw [hm]; exact take_pre "MediaWiki Version: " _) h2
  rcases hm with hm | hm
  · exact absurd hm h3
  rcases hm with hm | hm
  · exact absurd hm h4
  · exact absurd hm h5

theorem compare_lines_of_empty (t c : ConfigTree) (r1 r2 : String) (mw : Option String)
    (he : YamlComparer.compare_extensions t.extensions c.extensions = [])
    (hs : YamlComparer.compare_skins t.skins c.skins = [])
    (hp : YamlComparer.compare_packages t.packages c.extensions = [])
    (hr : YamlComparer.compare_repositories t.repositories c = []) :
    YamlComparer.compare_lines t c r1 r2 mw
      = YamlComparer.header_lines r1 r2 mw ++ ["", "No differences found!"] := by
  rw [YamlComparer.compare_lines]
  rw [he, hs, hp, hr]
  simp

/-- Input for the C6 counterexample: a tree whose packages section is
non-empty. -/
def c6T : ConfigTree := ⟨[], [], [[("name", .str "pkg1"), ("version", .str "1.0")]], []⟩

/-- C6 counterexample: comparing a configuration tree holding one package
against an identical copy of itself does not report "No differences found!";
the packages section compares Taqasta packages against Canasta
composer-update extensions, which are disjoint notions, so the self-report
carries a COMPOSER PACKAGES section. -/
theorem c6_counterexample :
    "No differences found!" ∉ YamlComparer.compare_lines c6T c6T "a" "b" none
    ∧ "COMPOSER PACKAGES:" ∈ YamlComparer.compare_lines c6T c6T "a" "b" none := by
  decide

/-- C6 amended: comparing a tree against an identical copy of itself yields
exactly the header plus the single "No differences found!" line, with no
section headers, provided the tree has no packages, no repositories section,
no composer-update steps, and no repository attributes (the four places the
comparison reads asymmetrically); and in general, whenever all four section
bodies are empty, compare emits exactly the header plus the single "No
differences found!" line. -/
theorem c6_amended_self_compare :
    (∀ (t : ConfigTree) (r1 r2 : String) (mw : Option String),
        t.packages = [] → t.repositories = [] →
        noComposerSteps t.extensions = true →
        noRepositoryKeys (t.extensions ++ t.skins) = true →
        (YamlComparer.compare_lines t t r1 r2 mw
            = YamlComparer.header_lines r1 r2 mw ++ ["", "No differences found!"]
          ∧ "No differences found!" ∈ YamlComparer.compare_lines t t r1 r2 mw
          ∧ "EXTENSIONS:" ∉ YamlComparer.compare_lines t t r1 r2 mw
          ∧ "SKINS:" ∉ YamlComparer.compare_lines t t r1 r2 mw
          ∧ "COMPOSER PACKAGES:" ∉ YamlComparer.compare_lines t t r1 r2 mw
          ∧ "REPOSITORIES:" ∉ YamlComparer.compare_lines t t r1 r2 mw))
    ∧ (∀ (t c : ConfigTree) (r1 r2 : String) (mw : Option String),
        YamlComparer.compare_extensions t.extensions c.extensions = [] →
        YamlComparer.compare_skins t.skins c.skins = [] →
        YamlComparer.compare_packages t.packages c.extensions = [] →
        YamlComparer.compare_repositories t.repositories c = [] →
        YamlComparer.compare_lines t c r1 r2 mw
          = YamlComparer.header_lines r1 r2 mw ++ ["", "No differences found!"]) := by
  constructor
  · intro t r1 r2 mw hp hr hcs hrk
    have hasm : YamlComparer.compare_lines t t r1 r2 mw
        = YamlComparer.header_lines r1 r2 mw ++ ["", "No differences found!"] :=
      compare_lines_of_empty t t r1 r2 mw (compare_extensions_self _) (compare_skins_self _)
        (by rw [hp]; exact compare_packages_empty _ hcs)
        (by rw [hr]; exact compare_repositories_empty _ hrk)
    refine ⟨hasm, ?_, ?_, ?_, ?_, ?_⟩
    · rw [hasm]; simp
    · rw [hasm]
      exact notMemHeaderAux _ _ _ _ (by decide) (by decide) (by decide) (by decide) (by decide)
    · rw [hasm]
      exact notMemHeaderAux _ _ _ _ (by decide) (by decide) (by decide) (by decide) (by decide)
    · rw [hasm]
      exact notMemHeaderAux _ _ _ _ (by decide) (by decide) (by decide) (by decide) (by decide)
    · rw [hasm]
      exact notMemHeaderAux _ _ _ _ (by decide) (by decide) (by decide) (by decide) (by decide)
  · exact fun t c r1 r2 mw => compare_lines_of_empty t c r1 r2 mw

/-- The identical-trees witness input for C6, mirroring the repository test
test_compare_no_differences. -/
def c6W : ConfigTree := ⟨[[("Ext1", [("commit", .str "abc123")])]], [[("Skin1", [("commit", .str "def456")])]], [], []⟩

/-- C6 witness: the amended theorem applied to a concrete tree with one
extension and one skin. -/
theorem c6_witness :
    YamlComparer.compare_lines c6W c6W "master" "main" none
      = YamlComparer.header_lines "master" "main" none ++ ["", "No differences found!"]
    ∧ "No differences found!" ∈ YamlComparer.compare_lines c6W c6W "master" "main" none :=
  ⟨(c6_amended_self_compare.1 c6W "master" "main" none rfl rfl (by decide) (by decide)).1,
   (c6_amended_self_compare.1 c6W "master" "main" none rfl rfl (by decide) (by decide)).2.1⟩

theorem flatten_single (n : String) (d : AttrMap) :
    flattenItems [[(n, d)]] = [(n, d)] := by
  simp [flattenItems, dictInsert]

theorem sortedUniq_single (x : String) : sortedUniq [x] = [x] := by
  simp [sortedUniq, List.insertionSort, List.orderedInsert]

theorem clean_repo_path :
    YamlComparer.clean_diff_path (pathSub "root" "repository") = some "repository" := by
  decide

theorem diff_commit_repo (k u v : String) (huv : u ≠ v) :
    deepDiff [("commit", .str k), ("repository", .str u)]
      [("commit", .str k), ("repository", .str v)]
      = { values_changed := [(pathSub "root" "repository", .str u, .str v)] } := by
  rw [deepDiff, diffVal]
  rw [diffEntries]
  simp [diffEntries, diffVal, lookupY_cons, keysOf, dedupFirst, dedupFirst.go,
    Yaml.typeName, huv, DeepDiffResult.append_empty, DeepDiffResult.empty_append,
    pathSub]

theorem diff_commit_repo_self (k u : String) :
    deepDiff [("commit", .str k), ("repository", .str u)]
      [("commit", .str k), ("repository", .str u)] = {} :=
  deepDiff_self _

theorem compare_extensions_family (name k u v : String)
    (hequiv : YamlComparer.repos_are_equivalent (some u) (some v) = true) :
    YamlComparer.compare_extensions
      [[(name, [("commit", .str k), ("repository", .str u)])]]
      [[(name, [("commit", .str k), ("repository", .str v)])]] = [] := by
  unfold YamlComparer.compare_extensions
  rw [flatten_single, flatten_single]
  by_cases huv : u = v
  · subst huv
    simp [keysOf, sortedUniq_single, sortedUniq_nil, lookupY_cons, deepDiff_self, DeepDiffResult.isEmpty]
  · simp only [keysOf, List.map_cons, List.map_nil]
    simp [sortedUniq_single, lookupY_cons, diff_commit_repo k u v huv,
      DeepDiffResult.isEmpty, YamlComparer.four_field_different,
      YamlComparer.has_meaningful_other, YamlComparer.reposEquivOY,
      YamlComparer.reposEquivY, hequiv, clean_repo_path, stepsSet, stepsList, stepsRaw,
      lookupY_cons, sortedUniq_nil]

theorem lookupY_nil {α : Type} (k : String) : lookupY ([] : List (String × α)) k = none := rfl

theorem compare_packages_family (name k v : String) :
    YamlComparer.compare_packages []
      [[(name, [("commit", .str k), ("repository", .str v)])]] = [] := by
  unfold YamlComparer.compare_packages
  simp [YamlComparer.canasta_composer_packages, YamlComparer.taqasta_package_names_of,
    stepsHasComposerUpdate, stepsRaw, lookupY_cons, lookupY_nil, sortedUniq_nil,
    List.filterMap_cons]

theorem compare_repositories_family (name k u v : String)
    (hequiv : YamlComparer.repos_are_equivalent (some u) (some v) = true) :
    YamlComparer.compare_repositories [[("url", .str u)]]
      ⟨[[(name, [("commit", .str k), ("repository", .str v)])]], [], [], []⟩ = [] := by
  unfold YamlComparer.compare_repositories
  simp [lookupY_cons, lookupY_nil, hequiv, sortedUniq_nil]

/-- The C3 family of tree pairs: identical but for a cosmetic repository
difference on one shared extension, with the base listing its repository URL. -/
def c3Base (name k u : String) : ConfigTree :=
  ⟨[[(name, [("commit", .str k), ("repository", .str u)])]], [], [], [[("url", .str u)]]⟩

def c3Ref (name k v : String) : ConfigTree :=
  ⟨[[(name, [("commit", .str k), ("repository", .str v)])]], [], [], []⟩

/-- C3 amended: the equivalence-suppression scenario holds once the base
tree also lists its repository URL in its repositories section (as the
repository test does): for every extension name, commit, and pair of
equivalent non-empty repository URLs, comparing the two one-extension trees
yields exactly the header plus "No differences found!".  Without the
repositories entry the counterexample shows the REPOSITORIES section
reports the reference URL, because repository-set reconciliation compares
base repositories entries against URLs referenced by reference items. -/
theorem c3_amended_equivalent_repo_suppressed (name k u v r1 r2 : String) (mw : Option String)
    (hequiv : YamlComparer.repos_are_equivalent (some u) (some v) = true) :
    YamlComparer.compare_lines (c3Base name k u) (c3Ref name k v) r1 r2 mw
      = YamlComparer.header_lines r1 r2 mw ++ ["", "No differences found!"]
    ∧ "No differences found!" ∈ YamlComparer.compare_lines (c3Base name k u) (c3Ref name k v) r1 r2 mw := by
  have hasm := compare_lines_of_empty (c3Base name k u) (c3Ref name k v) r1 r2 mw
    (compare_extensions_family name k u v hequiv)
    (compare_skins_self [])
    (compare_packages_family name k v)
    (compare_repositories_family name k u v hequiv)
  exact ⟨hasm, by rw [hasm]; simp⟩

/-- C3 counterexample: the minimal scenario of the claim, a shared extension
whose repository differs only cosmetically and no other content, does not
produce "No differences found!": the REPOSITORIES section flags the
reference-side URL, since the base tree lists no repositories. -/
theorem c3_counterexample :
    "No differences found!" ∉ YamlComparer.compare_lines
      ⟨[[("Ext1", [("commit", .str "abc123"), ("repository", .str "https://h/r.git")])]], [], [], []⟩
      ⟨[[("Ext1", [("commit", .str "abc123"), ("repository", .str "https://h/r")])]], [], [], []⟩
      "a" "b" none
    ∧ "REPOSITORIES:" ∈ YamlComparer.compare_lines
      ⟨[[("Ext1", [("commit", .str "abc123"), ("repository", .str "https://h/r.git")])]], [], [], []⟩
      ⟨[[("Ext1", [("commit", .str "abc123"), ("repository", .str "https://h/r")])]], [], [], []⟩
      "a" "b" none
    ∧ YamlComparer.repos_are_equivalent (some "https://h/r.git") (some "https://h/r") = true := by
  decide

/-- C3 witness: the amended theorem at the concrete scenario of the
repository test test_compare_extensions_equivalent_repos. -/
theorem c3_witness :
    YamlComparer.compare_lines (c3Base "Ext1" "abc123" "https://h/r.git")
        (c3Ref "Ext1" "abc123" "https://h/r") "master" "main" none
      = YamlComparer.header_lines "master" "main" none ++ ["", "No differences found!"] :=
  (c3_amended_equivalent_repo_suppressed "Ext1" "abc123" "https://h/r.git" "https://h/r"
    "master" "main" none (by decide)).1

theorem not_contains_of_not_mem {l : List String} {k : String} (h : k ∉ l) :
    l.contains k = false := by
  cases hc : l.contains k
  · rfl
  · exfalso
    apply h
    simpa [List.contains_eq_any_beq] using hc

theorem mem_sortedUniq {a : String} {l : List String} : a ∈ sortedUniq l ↔ a ∈ l := by
  rw [sortedUniq]
  rw [(List.perm_insertionSort (fun x y => strLeb x y) l.dedup).mem_iff]
  exact List.mem_dedup

theorem packages_only_in_taqasta_reported (pkgs : List (List (String × Yaml))) (exts : List Item)
    (pkg : List (String × Yaml)) (nameStr : String)
    (hpkg : pkg ∈ pkgs)
    (hname : lookupY pkg "name" = some (.str nameStr))
    (hnot : pyLower nameStr ∉ YamlComparer.canasta_composer_packages exts) :
    "  Composer packages only in Taqasta:" ∈ YamlComparer.compare_packages pkgs exts
    ∧ (pkgs.find? (fun tp => YamlComparer.tpLowName tp == pyLower nameStr)).isSome = true
    ∧ (∀ tp, pkgs.find? (fun tp => YamlComparer.tpLowName tp == pyLower nameStr) = some tp →
        ("    + " ++ (pyShow (lookupY tp "name") ++ (" @ " ++ YamlComparer.pkg_version_label tp)))
          ∈ YamlComparer.compare_packages pkgs exts) := by
  have htq : pyLower nameStr ∈ YamlComparer.taqasta_package_names_of pkgs := by
    rw [YamlComparer.taqasta_package_names_of, List.mem_filterMap]
    exact ⟨pkg, hpkg, by rw [hname]⟩
  have honly : pyLower nameStr ∈ sortedUniq
      ((YamlComparer.taqasta_package_names_of pkgs).filter
        (fun n => !(YamlComparer.canasta_composer_packages exts).contains n)) := by
    rw [mem_sortedUniq, List.mem_filter]
    exact ⟨htq, by simp; exact hnot⟩
  have hne : sortedUniq ((YamlComparer.taqasta_package_names_of pkgs).filter
      (fun n => !(YamlComparer.canasta_composer_packages exts).contains n)) ≠ [] :=
    List.ne_nil_of_mem honly
  have hfind : (pkgs.find? (fun tp => YamlComparer.tpLowName tp == pyLower nameStr)).isSome = true := by
    rw [List.find?_isSome]
    refine ⟨pkg, hpkg, ?_⟩
    simp [YamlComparer.tpLowName, hname]
  have hne2 : ((YamlComparer.taqasta_package_names_of pkgs).filter
      (fun n => !(YamlComparer.canasta_composer_packages exts).contains n)
      |> sortedUniq).isEmpty = false := by
    cases hx : ((YamlComparer.taqasta_package_names_of pkgs).filter
        (fun n => !(YamlComparer.canasta_composer_packages exts).contains n)
        |> sortedUniq).isEmpty
    · rfl
    · exact absurd (List.isEmpty_iff.mp hx) hne
  refine ⟨?_, hfind, ?_⟩
  · rw [YamlComparer.compare_packages]
    apply List.mem_append_left
    rw [if_pos (show _ = true by rw [hne2]; rfl)]
    exact List.mem_cons_self _ _
  · intro tp htp
    rw [YamlComparer.compare_packages]
    apply List.mem_append_left
    rw [if_pos (show _ = true by rw [hne2]; rfl)]
    apply List.mem_cons_of_mem
    rw [List.mem_flatMap]
    refine ⟨pyLower nameStr, honly, ?_⟩
    rw [htp]
    exact List.mem_singleton.mpr rfl

/-- C8 amended: every Taqasta package entry carrying a name whose lowercased
form has no match in the Canasta composer set is reported under the Composer
packages only in Taqasta header, rendered from the first entry in list order
with that lowercased name (original-case name and version, default dev);
duplicate lowercased names collapse to a single set element rendered from
that first matching entry.  The concrete scenario of the claim holds. -/
theorem c8_amended_package_reporting :
    (∀ (pkgs : List (List (String × Yaml))) (exts : List Item)
        (pkg : List (String × Yaml)) (nameStr : String),
        pkg ∈ pkgs →
        lookupY pkg "name" = some (.str nameStr) →
        pyLower nameStr ∉ YamlComparer.canasta_composer_packages exts →
        ("  Composer packages only in Taqasta:" ∈ YamlComparer.compare_packages pkgs exts
          ∧ (pkgs.find? (fun tp => YamlComparer.tpLowName tp == pyLower nameStr)).isSome = true
          ∧ (∀ tp, pkgs.find? (fun tp => YamlComparer.tpLowName tp == pyLower nameStr) = some tp →
              ("    + " ++ (pyShow (lookupY tp "name") ++ (" @ " ++ YamlComparer.pkg_version_label tp)))
                ∈ YamlComparer.compare_packages pkgs exts)))
    ∧ YamlComparer.compare_packages [[("name", .str "pkg1"), ("version", .str "1.0")]] []
        = ["  Composer packages only in Taqasta:", "    + pkg1 @ 1.0"] :=
  ⟨packages_only_in_taqasta_reported, by decide⟩

/-- C8 witness: the amended theorem at the concrete packages scenario. -/
theorem c8_witness :
    "  Composer packages only in Taqasta:"
      ∈ YamlComparer.compare_packages [[("name", .str "pkg1"), ("version", .str "1.0")]] [] :=
  (c8_amended_package_reporting.1 [[("name", .str "pkg1"), ("version", .str "1.0")]] []
    [("name", .str "pkg1"), ("version", .str "1.0")] "pkg1"
    (by decide) (by decide) (by decide)).1

/-- C8 counterexample: with two package entries whose names differ only in
case, the second entry satisfies the claim premise (it has a name and its
lowercased name has no Canasta match) but is never rendered with its own
name and version; only the first matching entry is rendered. -/
theorem c8_counterexample :
    ("    + a @ 2") ∉ YamlComparer.compare_packages
        [[("name", .str "A"), ("version", .str "1")], [("name", .str "a"), ("version", .str "2")]] []
    ∧ lookupY [("name", Yaml.str "a"), ("version", Yaml.str "2")] "name" = some (.str "a")
    ∧ pyLower "a" ∉ YamlComparer.canasta_composer_packages []
    ∧ ("    + A @ 1") ∈ YamlComparer.compare_packages
        [[("name", .str "A"), ("version", .str "1")], [("name", .str "a"), ("version", .str "2")]] [] := by
  decide


theorem take_of_append_le (a b : String) (nl : Nat) (h : nl ≤ a.data.length) :
    (a ++ b).data.take nl = a.data.take nl := by
  rw [String.data_append]
  exact List.take_append_of_le_length h

theorem ne_flag_of_pre (pre rest n : String)
    (hlen : 6 ≤ pre.data.length)
    (hp : ¬ pre.data.take 6 = ("    ~ " : String).data) :
    pre ++ rest ≠ "    ~ " ++ (n ++ ":") := by
  apply str_ne_of_take (pre ++ rest) ("    ~ " ++ (n ++ ":")) ("    ~ " : String).data
  · exact take_pre "    ~ " (n ++ ":")
  · rw [show ("    ~ " : String).data.length = 6 from rfl, take_of_append_le pre rest 6 hlen]
    exact hp

theorem lit_ne_flag (lit n : String)
    (hp : ¬ lit.data.take 6 = ("    ~ " : String).data) :
    lit ≠ "    ~ " ++ (n ++ ":") := by
  apply str_ne_of_take lit ("    ~ " ++ (n ++ ":")) ("    ~ " : String).data
  · exact take_pre "    ~ " (n ++ ":")
  · rw [show ("    ~ " : String).data.length = 6 from rfl]
    exact hp

theorem flag_take (n : String) :
    ("    ~ " ++ (n ++ ":")).data.take 6 = ("    ~ " : String).data :=
  take_pre "    ~ " (n ++ ":")

theorem flag_inj (m n : String)
    (h : "    ~ " ++ (m ++ ":") = "    ~ " ++ (n ++ ":")) : m = n := by
  have hd := congrArg String.data h
  rw [String.data_append, String.data_append, String.data_append, String.data_append] at hd
  have h2 := List.append_cancel_left hd
  have h3 := List.append_cancel_right h2
  exact String.ext h3

theorem mem_ite_nil {α : Type} {a : α} {c : Prop} [Decidable c] {xs : List α}
    (h : a ∈ (if c then xs else [])) : a ∈ xs := by
  split at h
  · exact h
  · cases h

theorem render_take (b : Bool) (d : DeepDiffResult) (L : String)
    (h : L ∈ YamlComparer.render_other_lines b d) :
    L.data.take 6 = ("      " : String).data := by
  simp only [YamlComparer.render_other_lines] at h
  rcases List.mem_append.mp h with h | h
  case inr =>
    have h2 := mem_ite_nil h
    rcases List.mem_cons.mp h2 with he | he
    · rw [he, take_of_append_le _ _ 6 (by decide)]; decide
    · cases he
  rcases List.mem_append.mp h with h | h
  case inr =>
    have h2 := mem_ite_nil h
    rcases List.mem_cons.mp h2 with he | he
    · rw [he, take_of_append_le _ _ 6 (by decide)]; decide
    · cases he
  rcases List.mem_append.mp h with h | h
  case inr =>
    obtain ⟨a, _, hfa⟩ := List.mem_map.mp h
    rw [← hfa, take_of_append_le _ _ 6 (by decide)]; decide
  rcases List.mem_append.mp h with h | h
  case inr =>
    obtain ⟨a, _, hfa⟩ := List.mem_map.mp h
    rw [← hfa, take_of_append_le _ _ 6 (by decide)]; decide
  rcases List.mem_append.mp h with h | h
  case inr =>
    obtain ⟨a, _, hfa⟩ := List.mem_map.mp h
    rw [← hfa, take_of_append_le _ _ 6 (by decide)]; decide
  obtain ⟨a, _, hfa⟩ := List.mem_filterMap.mp h
  split at hfa
  · cases hfa
  · rw [← Option.some.inj hfa, take_of_append_le _ _ 6 (by decide)]; decide

theorem mem_skin_diff_lines (e : String × AttrMap × AttrMap × DeepDiffResult) (L : String)
    (h : L ∈ YamlComparer.skin_diff_lines e) :
    L = "    ~ " ++ (e.1 ++ ":") ∨ L.data.take 6 = ("      " : String).data := by
  simp only [YamlComparer.skin_diff_lines] at h
  rcases List.mem_cons.mp h with he | h
  · exact Or.inl he
  right
  rcases List.mem_append.mp h with h | h
  · have h2 := mem_ite_nil h
    rcases List.mem_cons.mp h2 with he | h2
    · rw [he, take_of_append_le _ _ 6 (by decide)]; decide
    rcases List.mem_cons.mp h2 with he | h2
    · rw [he, take_of_append_le _ _ 6 (by decide)]; decide
    · cases h2
  · have h2 := mem_ite_nil h
    rcases List.mem_cons.mp h2 with he | h2
    · rw [he]; decide
    · exact render_take false _ L h2

/-- C1 amended: a skin present in both flattened maps whose attribute diff is
empty is never flagged in the different-configurations listing; the claimed
cosmetic exception does not exist for skins. -/
theorem c1_amended_skin_not_flagged (ts cs : List Item) (n : String) (td cd : AttrMap)
    (ht : lookupY (flattenItems ts) n = some td)
    (hc : lookupY (flattenItems cs) n = some cd)
    (hd : (deepDiff td cd).isEmpty = true) :
    ("    ~ " ++ (n ++ ":")) ∉ YamlComparer.compare_skins ts cs := by
  intro hmem
  simp only [YamlComparer.compare_skins] at hmem
  rcases List.mem_append.mp hmem with h | h
  case inr =>
    have h2 := mem_ite_nil h
    rcases List.mem_cons.mp h2 with he | h2
    case inl => exact lit_ne_flag _ n (by decide) he.symm
    obtain ⟨e, hed, hL⟩ := List.mem_flatMap.mp h2
    rcases mem_skin_diff_lines e _ hL with he | htake
    case inr =>
      have h6 := (flag_take n).symm.trans htake
      exact absurd h6 (by decide)
    have hn : n = e.1 := flag_inj n e.1 he
    obtain ⟨m, _, hfm⟩ := List.mem_filterMap.mp hed
    split at hfm
    case isTrue hcond =>
      have he1 := congrArg (fun x => x.1) (Option.some.inj hfm)
      simp at he1
      rw [hn, ← he1] at ht hc
      have hts : (lookupY (flattenItems ts) m).getD [] = td := by rw [ht]; rfl
      have hcs : (lookupY (flattenItems cs) m).getD [] = cd := by rw [hc]; rfl
      rw [hts, hcs, hd] at hcond
      exact absurd hcond (by decide)
    case isFalse => cases hfm
  rcases List.mem_append.mp h with h | h
  · have h2 := mem_ite_nil h
    rcases List.mem_cons.mp h2 with he | h2
    · exact lit_ne_flag _ n (by decide) he.symm
    · obtain ⟨a, _, hfa⟩ := List.mem_map.mp h2
      exact ne_flag_of_pre "    + " a n (by decide) (by decide) hfa
  · have h2 := mem_ite_nil h
    rcases List.mem_cons.mp h2 with he | h2
    · exact lit_ne_flag _ n (by decide) he.symm
    · obtain ⟨a, _, hfa⟩ := List.mem_map.mp h2
      exact ne_flag_of_pre "    - " a n (by decide) (by decide) hfa

/-- C1 witness: the amended theorem applied to identical singleton skins
named Vector, whose diff is empty. -/
theorem c1_witness :
    lookupY (flattenItems [[("Vector", [("commit", Yaml.str "abc")])]]) "Vector"
        = some [("commit", Yaml.str "abc")]
      ∧ (deepDiff [("commit", Yaml.str "abc")] [("commit", Yaml.str "abc")]).isEmpty = true
      ∧ ("    ~ " ++ ("Vector" ++ ":")) ∉ YamlComparer.compare_skins
          [[("Vector", [("commit", Yaml.str "abc")])]]
          [[("Vector", [("commit", Yaml.str "abc")])]] :=
  ⟨by decide, by decide,
    c1_amended_skin_not_flagged _ _ "Vector" [("commit", Yaml.str "abc")]
      [("commit", Yaml.str "abc")] (by decide) (by decide) (by decide)⟩

/-- C1 counterexample: skins sharing the name Vector with equal commits and a
diff consisting solely of an equivalent repository URL change (.git suffix)
are still flagged. -/
theorem c1_counterexample :
    (let td : AttrMap := [("commit", Yaml.str "abc"), ("repository", Yaml.str "https://h/r.git")]
     let cd : AttrMap := [("commit", Yaml.str "abc"), ("repository", Yaml.str "https://h/r")]
     let t : ConfigTree := { skins := [[("Vector", td)]] }
     let c : ConfigTree := { skins := [[("Vector", cd)]] }
     lookupY td "commit" = lookupY cd "commit"
       ∧ YamlComparer.has_meaningful_other (deepDiff td cd) = false
       ∧ (deepDiff td cd).isEmpty = false
       ∧ ("    ~ " ++ ("Vector" ++ ":")) ∈ YamlComparer.compare_skins t.skins c.skins
       ∧ ("    ~ " ++ ("Vector" ++ ":")) ∈ YamlComparer.compare_lines t c "r1" "r2" none) := by
  decide



theorem map_subst_lookup {α : Type} (d : List (String × α)) (k n : String) (v : α) :
    lookupY (d.map (fun p => if p.1 == k then (k, v) else p)) n =
      if k == n then (if d.any (fun p => p.1 == k) then some v else none)
      else lookupY d n := by
  induction d with
  | nil => by_cases h : (k == n) = true <;> simp [lookupY_nil, h]
  | cons p rest ih =>
      obtain ⟨k2, v2⟩ := p
      simp only [List.map_cons, List.any_cons]
      by_cases h2 : (k2 == k) = true
      · rw [if_pos h2, lookupY_cons, lookupY_cons]
        simp only [h2, Bool.true_or]
        by_cases h3 : (k == n) = true
        · have h23 : (k2 == n) = true := by rw [beq_iff_eq.mp h2]; exact h3
          rw [if_pos h3, if_pos h3]
          simp
        · have h23 : (k2 == n) = false := by
            rw [beq_iff_eq.mp h2]; simpa using h3
          rw [if_neg h3, if_neg h3]
          simp only [h23, if_neg Bool.false_ne_true]
          rw [ih, if_neg h3]
      · rw [if_neg h2, lookupY_cons, lookupY_cons]
        have h2f : (k2 == k) = false := by simpa using h2
        simp only [h2f, Bool.false_or]
        by_cases h3 : (k2 == n) = true
        · have h4 : (k == n) = false := by
            refine Bool.eq_false_iff.mpr (fun h5 => h2 ?_)
            rw [show k2 = n from beq_iff_eq.mp h3, show k = n from beq_iff_eq.mp h5]
            simp
          rw [if_pos h3, if_neg (by simp [h4] : ¬(k == n) = true), if_pos h3]
        · rw [if_neg h3, ih]
          by_cases h5 : (k == n) = true
          · rw [if_pos h5, if_pos h5]
          · rw [if_neg h5, if_neg h5, if_neg h3]

theorem lookupY_dictInsert {α : Type} (d : List (String × α)) (k n : String) (v : α) :
    lookupY (dictInsert d k v) n = if k == n then some v else lookupY d n := by
  rw [dictInsert]
  by_cases hany : (d.any (fun p => p.1 == k)) = true
  · rw [if_pos hany, map_subst_lookup]
    by_cases h : (k == n) = true
    · rw [if_pos h, if_pos h, if_pos hany]
    · rw [if_neg h, if_neg h]
  · rw [if_neg hany]
    have hnone : ∀ m : List (String × α), (m.any (fun p => p.1 == k)) = false →
        List.find? (fun p => p.1 == k) m = none := by
      intro m hm
      rw [List.find?_eq_none]
      intro x hx
      intro hxk
      have : m.any (fun p => p.1 == k) = true := List.any_eq_true.mpr ⟨x, hx, hxk⟩
      rw [hm] at this
      cases this
    by_cases h : (k == n) = true
    · have hk : k = n := beq_iff_eq.mp h
      subst hk
      rw [if_pos h]
      unfold lookupY
      rw [List.find?_append, hnone d (Bool.eq_false_iff.mpr hany)]
      simp [List.find?]
    · rw [if_neg h]
      unfold lookupY
      rw [List.find?_append]
      have : List.find? (fun p => p.1 == n) [(k, v)] = none := by
        simp [List.find?, h]
      rw [this]
      simp

theorem foldl_insert_lookup {α : Type} (ps : List (String × α)) (d : List (String × α)) (n : String) :
    lookupY (ps.foldl (fun d p => dictInsert d p.1 p.2) d) n =
      match ps.reverse.find? (fun p => p.1 == n) with
      | some p => some p.2
      | none => lookupY d n := by
  induction ps generalizing d with
  | nil => simp
  | cons p rest ih =>
      rw [List.foldl_cons, ih, List.reverse_cons, List.find?_append]
      cases hf : rest.reverse.find? (fun p => p.1 == n) with
      | some q => simp
      | none =>
          simp only [Option.none_or]
          by_cases h : (p.1 == n) = true
          · simp [List.find?, h, lookupY_dictInsert]
          · simp [List.find?, h, lookupY_dictInsert]

theorem flatten_lookup_aux (items : List Item) (d : List (String × AttrMap)) (n : String) :
    lookupY (items.foldl (fun d item => item.foldl (fun d p => dictInsert d p.1 p.2) d) d) n =
      match (items.flatMap (fun i => i)).reverse.find? (fun p => p.1 == n) with
      | some p => some p.2
      | none => lookupY d n := by
  induction items generalizing d with
  | nil => simp
  | cons i rest ih =>
      rw [List.foldl_cons, ih, List.flatMap_cons, List.reverse_append, List.find?_append]
      cases hf : (rest.flatMap (fun i => i)).reverse.find? (fun p => p.1 == n) with
      | some q => simp
      | none =>
          simp only [Option.none_or]
          rw [foldl_insert_lookup]
          cases hfi : List.find? (fun p => p.1 == n) i.reverse <;> simp

theorem flatten_last_wins (items : List Item) (n : String) :
    lookupY (flattenItems items) n =
      ((items.flatMap (fun i => i)).reverse.find? (fun p => p.1 == n)).map (fun p => p.2) := by
  rw [flattenItems, flatten_lookup_aux]
  cases hf : (items.flatMap (fun i => i)).reverse.find? (fun p => p.1 == n) <;>
    simp [lookupY_nil]

theorem listEquivVal_of_eq (v : Yaml) : listEquivVal v v = true := by
  cases v <;> simp [listEquivVal]

theorem listEquiv_elim {v w : Yaml} (h : listEquivVal v w = true) :
    v = w ∨ ∃ xs ys, v = .list xs ∧ w = .list ys ∧ (↑xs : Multiset Yaml) = (↑ys : Multiset Yaml) := by
  cases v <;> cases w <;> simp [listEquivVal] at h ⊢ <;> try exact h
  exact Or.inr h

theorem stepsEquiv_listEquiv {k : String} {v w : Yaml} (h : stepsEquivVal k v w = true) :
    listEquivVal v w = true := by
  rw [stepsEquivVal] at h
  split at h
  · exact h
  · have : v = w := of_decide_eq_true h
    rw [this]
    exact listEquivVal_of_eq w

theorem stepsEquiv_ne {k : String} {v w : Yaml} (hk : k ≠ "additional steps")
    (h : stepsEquivVal k v w = true) : v = w := by
  rw [stepsEquivVal, if_neg hk] at h
  exact of_decide_eq_true h

theorem pairRel_keys {α : Type} {r : String → α → α → Bool} :
    ∀ {d d2 : List (String × α)}, pairRelB r d d2 = true → keysOf d = keysOf d2 := by
  intro d
  induction d with
  | nil => intro d2 h; cases d2 with
      | nil => rfl
      | cons p rest2 => simp [pairRelB] at h
  | cons p rest ih =>
      intro d2 h
      obtain ⟨k, v⟩ := p
      cases d2 with
      | nil => simp [pairRelB] at h
      | cons q rest2 =>
          obtain ⟨l, w⟩ := q
          rw [pairRelB] at h
          have h1 := Bool.and_eq_true_iff.mp h
          have h2 := Bool.and_eq_true_iff.mp h1.1
          rw [keysOf, keysOf, List.map_cons, List.map_cons]
          rw [show k = l from beq_iff_eq.mp h2.1]
          exact congrArg _ (ih h1.2)

theorem pairRel_lookup {α : Type} {r : String → α → α → Bool} (n : String) :
    ∀ {d d2 : List (String × α)}, pairRelB r d d2 = true →
    (lookupY d n = none ∧ lookupY d2 n = none)
      ∨ ∃ v w, lookupY d n = some v ∧ lookupY d2 n = some w ∧ r n v w = true := by
  intro d
  induction d with
  | nil => intro d2 h; cases d2 with
      | nil => exact Or.inl ⟨rfl, rfl⟩
      | cons p rest2 => simp [pairRelB] at h
  | cons p rest ih =>
      intro d2 h
      obtain ⟨k, v⟩ := p
      cases d2 with
      | nil => simp [pairRelB] at h
      | cons q rest2 =>
          obtain ⟨l, w⟩ := q
          rw [pairRelB] at h
          have h1 := Bool.and_eq_true_iff.mp h
          have h2 := Bool.and_eq_true_iff.mp h1.1
          have hk : k = l := beq_iff_eq.mp h2.1
          subst hk
          rw [lookupY_cons, lookupY_cons]
          by_cases hkn : (k == n) = true
          · rw [if_pos hkn, if_pos hkn]
            have hn : k = n := beq_iff_eq.mp hkn
            subst hn
            exact Or.inr ⟨v, w, rfl, rfl, h2.2⟩
          · rw [if_neg hkn, if_neg hkn]
            exact ih h1.2

theorem sortedUniq_perm_eq {l l2 : List String} (h : l.Perm l2) : sortedUniq l = sortedUniq l2 := by
  rw [sortedUniq, sortedUniq]
  haveI htot : IsTotal String (fun a b => strLeb a b = true) := ⟨by
    intro a b
    simp only [strLeb, decide_eq_true_eq]
    exact le_total a.data b.data⟩
  haveI htr : IsTrans String (fun a b => strLeb a b = true) := ⟨by
    intro a b c hab hbc
    simp only [strLeb, decide_eq_true_eq] at hab hbc ⊢
    exact le_trans hab hbc⟩
  haveI hanti : IsAntisymm String (fun a b => strLeb a b = true) := ⟨by
    intro a b hab hba
    simp only [strLeb, decide_eq_true_eq] at hab hba
    exact String.ext (le_antisymm hab hba)⟩
  have hd : l.dedup.Perm l2.dedup := h.dedup
  have hp : (List.insertionSort (fun a b => strLeb a b) l.dedup).Perm
      (List.insertionSort (fun a b => strLeb a b) l2.dedup) :=
    (List.perm_insertionSort _ _).trans (hd.trans (List.perm_insertionSort _ _).symm)
  exact List.eq_of_perm_of_sorted hp (List.sorted_insertionSort _ _) (List.sorted_insertionSort _ _)

theorem perm_any {α : Type} {l l2 : List α} (h : l.Perm l2) (p : α → Bool) :
    l.any p = l2.any p := by
  rw [List.any_eq, List.any_eq]
  exact decide_eq_decide.mpr
    ⟨fun ⟨x, hx, hp⟩ => ⟨x, h.mem_iff.mp hx, hp⟩, fun ⟨x, hx, hp⟩ => ⟨x, h.mem_iff.mpr hx, hp⟩⟩

theorem perm_isEmpty {α : Type} {l l2 : List α} (h : l.Perm l2) : l.isEmpty = l2.isEmpty := by
  cases l with
  | nil => rw [h.symm.eq_nil]
  | cons a rest =>
      cases l2 with
      | nil => exact absurd h.eq_nil (by simp)
      | cons b rest2 => rfl

theorem stepsList_perm {d d2 : AttrMap} (h : attrRelB d d2 = true) :
    (stepsList d).Perm (stepsList d2) := by
  rw [stepsList, stepsList, stepsRaw, stepsRaw]
  rcases pairRel_lookup "additional steps" h with ⟨h1, h2⟩ | ⟨v, w, h1, h2, hr⟩
  · rw [h1, h2]
  · rw [h1, h2]
    rcases listEquiv_elim (stepsEquiv_listEquiv hr) with he | ⟨xs, ys, hv, hw, hm⟩
    · rw [he]
    · subst hv
      subst hw
      exact (Multiset.coe_eq_coe.mp hm).filterMap _

theorem stepsSet_eq {d d2 : AttrMap} (h : attrRelB d d2 = true) : stepsSet d = stepsSet d2 := by
  rw [stepsSet, stepsSet]
  exact sortedUniq_perm_eq (stepsList_perm h)

theorem stepsHasCU_eq {d d2 : AttrMap} (h : attrRelB d d2 = true) :
    stepsHasComposerUpdate d = stepsHasComposerUpdate d2 := by
  rw [stepsHasComposerUpdate, stepsHasComposerUpdate, stepsRaw, stepsRaw]
  rcases pairRel_lookup "additional steps" h with ⟨h1, h2⟩ | ⟨v, w, h1, h2, hr⟩
  · rw [h1, h2]
  · rw [h1, h2]
    rcases listEquiv_elim (stepsEquiv_listEquiv hr) with he | ⟨xs, ys, hv, hw, hm⟩
    · rw [he]
    · subst hv
      subst hw
      have hperm := Multiset.coe_eq_coe.mp hm
      show ((!xs.isEmpty) && xs.any (fun x => decide (x = Yaml.str "composer update")))
          = ((!ys.isEmpty) && ys.any (fun x => decide (x = Yaml.str "composer update")))
      rw [perm_isEmpty hperm, perm_any hperm]

theorem attrRel_lookup_eq {d d2 : AttrMap} (h : attrRelB d d2 = true) (k : String)
    (hk : k ≠ "additional steps") : lookupY d k = lookupY d2 k := by
  rcases pairRel_lookup k h with ⟨h1, h2⟩ | ⟨v, w, h1, h2, hr⟩
  · rw [h1, h2]
  · rw [h1, h2, stepsEquiv_ne hk hr]

theorem diffVal_congr (p : String) {v w v2 w2 : Yaml}
    (hv : listEquivVal v v2 = true) (hw : listEquivVal w w2 = true) :
    diffVal p v w = diffVal p v2 w2 := by
  rcases listEquiv_elim hv with he | ⟨xs, ys, hx, hy, hmv⟩
  · subst he
    rcases listEquiv_elim hw with he2 | ⟨bs, cs, hb, hc, hmw⟩
    · subst he2
      rfl
    · subst hb
      subst hc
      cases v <;> simp [diffVal, hmw, Yaml.typeName, typeClassStr]
  · subst hx
    subst hy
    rcases listEquiv_elim hw with he2 | ⟨bs, cs, hb, hc, hmw⟩
    · subst he2
      cases w <;> simp [diffVal, hmv, Yaml.typeName, typeClassStr]
    · subst hb
      subst hc
      simp [diffVal, hmv, hmw]

theorem diffEntries_congr (p : String) :
    ∀ {m1 m1' : AttrMap}, attrRelB m1 m1' = true →
    ∀ {m2 m2' : AttrMap}, attrRelB m2 m2' = true →
    ∀ seen, diffEntries p m2 m1 seen = diffEntries p m2' m1' seen := by
  intro m1
  induction m1 with
  | nil =>
      intro m1' h
      cases m1' with
      | nil => intro m2 m2' h2 seen; rfl
      | cons q rest2 => simp [attrRelB, pairRelB] at h
  | cons pr rest ih =>
      intro m1' h
      obtain ⟨k, v⟩ := pr
      cases m1' with
      | nil => simp [attrRelB, pairRelB] at h
      | cons q rest2 =>
          obtain ⟨l, w⟩ := q
          rw [attrRelB, pairRelB] at h
          have h1 := Bool.and_eq_true_iff.mp h
          have h2 := Bool.and_eq_true_iff.mp h1.1
          have hk : k = l := beq_iff_eq.mp h2.1
          subst hk
          intro m2 m2' hm seen
          rw [diffEntries, diffEntries]
          by_cases hs : (seen.contains k) = true
          · rw [if_pos hs, if_pos hs]
            exact ih h1.2 hm seen
          · rw [if_neg hs, if_neg hs]
            have hrec := ih h1.2 hm (k :: seen)
            rcases pairRel_lookup k hm with ⟨ha, hb⟩ | ⟨a, b, ha, hb, hr⟩
            · rw [ha, hb, hrec]
            · rw [ha, hb]
              show diffVal (pathSub p k) v a ++ diffEntries p m2 rest (k :: seen)
                  = diffVal (pathSub p k) w b ++ diffEntries p m2' rest2 (k :: seen)
              rw [diffVal_congr (pathSub p k) (stepsEquiv_listEquiv h2.2) (stepsEquiv_listEquiv hr),
                hrec]

theorem deepDiff_congr {t t2 c c2 : AttrMap} (ht : attrRelB t t2 = true)
    (hc : attrRelB c c2 = true) : deepDiff t c = deepDiff t2 c2 := by
  show diffVal "root" (.map t) (.map c) = diffVal "root" (.map t2) (.map c2)
  rw [diffVal, diffVal, diffEntries_congr "root" ht hc [], pairRel_keys ht, pairRel_keys hc]

theorem pairRel_any_key {α : Type} {r : String → α → α → Bool} (k : String) :
    ∀ {d d2 : List (String × α)}, pairRelB r d d2 = true →
    d.any (fun p => p.1 == k) = d2.any (fun p => p.1 == k) := by
  intro d
  induction d with
  | nil => intro d2 h; cases d2 with
      | nil => rfl
      | cons q rest2 => simp [pairRelB] at h
  | cons p rest ih =>
      intro d2 h
      obtain ⟨k2, v⟩ := p
      cases d2 with
      | nil => simp [pairRelB] at h
      | cons q rest2 =>
          obtain ⟨l, w⟩ := q
          rw [pairRelB] at h
          have h1 := Bool.and_eq_true_iff.mp h
          have h2 := Bool.and_eq_true_iff.mp h1.1
          have hk : k2 = l := beq_iff_eq.mp h2.1
          subst hk
          rw [List.any_cons, List.any_cons, ih h1.2]

theorem itemRel_map_subst (k : String) {v v2 : AttrMap} (hv : attrRelB v v2 = true) :
    ∀ {d d2 : List (String × AttrMap)}, itemRelB d d2 = true →
    itemRelB (d.map (fun p => if p.1 == k then (k, v) else p))
      (d2.map (fun p => if p.1 == k then (k, v2) else p)) = true := by
  intro d
  induction d with
  | nil => intro d2 h; cases d2 with
      | nil => exact rfl
      | cons q rest2 => simp [itemRelB, pairRelB] at h
  | cons p rest ih =>
      intro d2 h
      obtain ⟨k2, u⟩ := p
      cases d2 with
      | nil => simp [itemRelB, pairRelB] at h
      | cons q rest2 =>
          obtain ⟨l, u2⟩ := q
          rw [itemRelB, pairRelB] at h
          have h1 := Bool.and_eq_true_iff.mp h
          have h2 := Bool.and_eq_true_iff.mp h1.1
          have hk : k2 = l := beq_iff_eq.mp h2.1
          subst hk
          rw [List.map_cons, List.map_cons]
          by_cases hkk : (k2 == k) = true
          · rw [if_pos hkk, if_pos hkk, itemRelB, pairRelB]
            have := ih h1.2
            rw [itemRelB] at this
            simp only [this, hv, Bool.and_true]
            simp
          · rw [if_neg hkk, if_neg hkk, itemRelB, pairRelB]
            have := ih h1.2
            rw [itemRelB] at this
            simp only [this, Bool.and_true]
            simp only [h2.1, h2.2, Bool.and_self]

theorem itemRel_append {k : String} {v v2 : AttrMap} (hv : attrRelB v v2 = true) :
    ∀ {d d2 : List (String × AttrMap)}, itemRelB d d2 = true →
    itemRelB (d ++ [(k, v)]) (d2 ++ [(k, v2)]) = true := by
  intro d
  induction d with
  | nil => intro d2 h; cases d2 with
      | nil =>
          show itemRelB [(k, v)] [(k, v2)] = true
          rw [itemRelB, pairRelB]
          simp [hv, pairRelB]
      | cons q rest2 => simp [itemRelB, pairRelB] at h
  | cons p rest ih =>
      intro d2 h
      obtain ⟨k2, u⟩ := p
      cases d2 with
      | nil => simp [itemRelB, pairRelB] at h
      | cons q rest2 =>
          obtain ⟨l, u2⟩ := q
          rw [itemRelB, pairRelB] at h
          have h1 := Bool.and_eq_true_iff.mp h
          rw [List.cons_append, List.cons_append, itemRelB, pairRelB]
          have := ih h1.2
          rw [itemRelB] at this
          simp only [h1.1, this, Bool.and_self]

theorem dictInsert_rel (k : String) {v v2 : AttrMap} (hv : attrRelB v v2 = true)
    {d d2 : List (String × AttrMap)} (h : itemRelB d d2 = true) :
    itemRelB (dictInsert d k v) (dictInsert d2 k v2) = true := by
  rw [dictInsert, dictInsert, pairRel_any_key k h]
  by_cases ha : (d2.any (fun p => p.1 == k)) = true
  · rw [if_pos ha, if_pos ha]
    exact itemRel_map_subst k hv h
  · rw [if_neg ha, if_neg ha]
    exact itemRel_append hv h

theorem item_foldl_rel : ∀ {item item2 : Item}, itemRelB item item2 = true →
    ∀ {d d2 : List (String × AttrMap)}, itemRelB d d2 = true →
    itemRelB (item.foldl (fun d p => dictInsert d p.1 p.2) d)
      (item2.foldl (fun d p => dictInsert d p.1 p.2) d2) = true := by
  intro item
  induction item with
  | nil => intro item2 h; cases item2 with
      | nil => intro d d2 hd; exact hd
      | cons q rest2 => simp [itemRelB, pairRelB] at h
  | cons pr rest ih =>
      intro item2 h
      obtain ⟨k, v⟩ := pr
      cases item2 with
      | nil => simp [itemRelB, pairRelB] at h
      | cons q rest2 =>
          obtain ⟨l, w⟩ := q
          rw [itemRelB, pairRelB] at h
          have h1 := Bool.and_eq_true_iff.mp h
          have h2 := Bool.and_eq_true_iff.mp h1.1
          have hk : k = l := beq_iff_eq.mp h2.1
          subst hk
          intro d d2 hd
          rw [List.foldl_cons, List.foldl_cons]
          exact ih h1.2 (dictInsert_rel k h2.2 hd)

theorem flattenItems_rel : ∀ {items items2 : List Item}, itemsRelB items items2 = true →
    itemRelB (flattenItems items) (flattenItems items2) = true := by
  suffices haux : ∀ {items items2 : List Item}, itemsRelB items items2 = true →
      ∀ {d d2 : List (String × AttrMap)}, itemRelB d d2 = true →
      itemRelB (items.foldl (fun d item => item.foldl (fun d p => dictInsert d p.1 p.2) d) d)
        (items2.foldl (fun d item => item.foldl (fun d p => dictInsert d p.1 p.2) d) d2) = true by
    intro items items2 h
    rw [flattenItems, flattenItems]
    exact haux h rfl
  intro items
  induction items with
  | nil => intro items2 h; cases items2 with
      | nil => intro d d2 hd; exact hd
      | cons j rest2 => simp [itemsRelB] at h
  | cons i rest ih =>
      intro items2 h
      cases items2 with
      | nil => simp [itemsRelB] at h
      | cons j rest2 =>
          rw [itemsRelB] at h
          have h1 := Bool.and_eq_true_iff.mp h
          intro d d2 hd
          rw [List.foldl_cons, List.foldl_cons]
          exact ih h1.2 (item_foldl_rel h1.1 hd)

theorem itemRel_getD {d d2 : List (String × AttrMap)} (h : itemRelB d d2 = true) (n : String) :
    attrRelB ((lookupY d n).getD []) ((lookupY d2 n).getD []) = true := by
  rcases pairRel_lookup n h with ⟨h1, h2⟩ | ⟨a, b, h1, h2, hr⟩
  · rw [h1, h2]
    rfl
  · rw [h1, h2]
    exact hr

theorem four_field_congr {t t2 c c2 : AttrMap} (ht : attrRelB t t2 = true)
    (hc : attrRelB c c2 = true) :
    YamlComparer.four_field_different t c = YamlComparer.four_field_different t2 c2 := by
  rw [YamlComparer.four_field_different, YamlComparer.four_field_different,
    attrRel_lookup_eq ht "commit" (by decide), attrRel_lookup_eq hc "commit" (by decide),
    attrRel_lookup_eq ht "repository" (by decide), attrRel_lookup_eq hc "repository" (by decide),
    attrRel_lookup_eq ht "branch" (by decide), attrRel_lookup_eq hc "branch" (by decide),
    stepsSet_eq ht, stepsSet_eq hc]

theorem ext_diff_lines_congr (x : String) {t t2 c c2 : AttrMap} (d : DeepDiffResult)
    (ht : attrRelB t t2 = true) (hc : attrRelB c c2 = true) :
    YamlComparer.ext_diff_lines (x, t, c, d) = YamlComparer.ext_diff_lines (x, t2, c2, d) := by
  simp only [YamlComparer.ext_diff_lines]
  rw [attrRel_lookup_eq ht "commit" (by decide), attrRel_lookup_eq hc "commit" (by decide),
    attrRel_lookup_eq ht "repository" (by decide), attrRel_lookup_eq hc "repository" (by decide),
    attrRel_lookup_eq ht "branch" (by decide), attrRel_lookup_eq hc "branch" (by decide),
    stepsSet_eq ht, stepsSet_eq hc, four_field_congr ht hc]

theorem skin_diff_lines_congr (x : String) {t t2 c c2 : AttrMap} (d : DeepDiffResult)
    (ht : attrRelB t t2 = true) (hc : attrRelB c c2 = true) :
    YamlComparer.skin_diff_lines (x, t, c, d) = YamlComparer.skin_diff_lines (x, t2, c2, d) := by
  simp only [YamlComparer.skin_diff_lines]
  rw [attrRel_lookup_eq ht "commit" (by decide), attrRel_lookup_eq hc "commit" (by decide)]

theorem unique_ext_lines_congr (marker : String) (names : List String)
    {dict dict2 : List (String × AttrMap)} (h : itemRelB dict dict2 = true) :
    YamlComparer.unique_ext_lines marker names dict
      = YamlComparer.unique_ext_lines marker names dict2 := by
  simp only [YamlComparer.unique_ext_lines]
  refine congrArg (fun f => names.flatMap f) (funext fun ext => ?_)
  have hrel := itemRel_getD h ext
  rw [attrRel_lookup_eq hrel "commit" (by decide), attrRel_lookup_eq hrel "repository" (by decide)]

theorem compare_extensions_eq_body (ts cs : List Item) :
    YamlComparer.compare_extensions ts cs = extBody (flattenItems ts) (flattenItems cs) := rfl

theorem compare_skins_eq_body (ts cs : List Item) :
    YamlComparer.compare_skins ts cs = skinBody (flattenItems ts) (flattenItems cs) := rfl

theorem extDiffsOf_cons (d c : List (String × AttrMap)) (x : String) (rest : List String) :
    extDiffsOf d c (x :: rest) =
      (if extCondOf d c x then
        (x, (lookupY d x).getD [], (lookupY c x).getD [],
          deepDiff ((lookupY d x).getD []) ((lookupY c x).getD [])) :: extDiffsOf d c rest
      else extDiffsOf d c rest) := by
  by_cases h : extCondOf d c x = true
  · rw [if_pos h]
    simp only [extCondOf] at h
    simp only [extDiffsOf, List.filterMap_cons, h, if_true]
  · have hf : extCondOf d c x = false := Bool.eq_false_iff.mpr h
    rw [if_neg h]
    simp only [extCondOf] at hf
    simp only [extDiffsOf, List.filterMap_cons, hf, Bool.false_eq_true, if_false]

theorem extCond_congr {d d2 c c2 : List (String × AttrMap)}
    (hd : itemRelB d d2 = true) (hc : itemRelB c c2 = true) (x : String) :
    extCondOf d c x = extCondOf d2 c2 x := by
  simp only [extCondOf]
  rw [deepDiff_congr (itemRel_getD hd x) (itemRel_getD hc x),
    four_field_congr (itemRel_getD hd x) (itemRel_getD hc x)]

theorem extDiffs_congr {d d2 c c2 : List (String × AttrMap)}
    (hd : itemRelB d d2 = true) (hc : itemRelB c c2 = true) :
    ∀ names : List String,
      (extDiffsOf d c names).flatMap YamlComparer.ext_diff_lines
          = (extDiffsOf d2 c2 names).flatMap YamlComparer.ext_diff_lines
        ∧ (extDiffsOf d c names).isEmpty = (extDiffsOf d2 c2 names).isEmpty := by
  intro names
  induction names with
  | nil => exact ⟨rfl, rfl⟩
  | cons x rest ih =>
      have hrelT := itemRel_getD hd x
      have hrelC := itemRel_getD hc x
      have hdiff : deepDiff ((lookupY d x).getD []) ((lookupY c x).getD [])
          = deepDiff ((lookupY d2 x).getD []) ((lookupY c2 x).getD []) :=
        deepDiff_congr hrelT hrelC
      rw [extDiffsOf_cons, extDiffsOf_cons, extCond_congr hd hc x]
      by_cases hb : extCondOf d2 c2 x = true
      · rw [if_pos hb, if_pos hb]
        constructor
        · rw [List.flatMap_cons, List.flatMap_cons, hdiff,
            ext_diff_lines_congr x _ hrelT hrelC, ih.1]
        · simp
      · rw [if_neg hb, if_neg hb]
        exact ih

theorem skinDiffsOf_cons (d c : List (String × AttrMap)) (x : String) (rest : List String) :
    skinDiffsOf d c (x :: rest) =
      (if skinCondOf d c x then
        (x, (lookupY d x).getD [], (lookupY c x).getD [],
          deepDiff ((lookupY d x).getD []) ((lookupY c x).getD [])) :: skinDiffsOf d c rest
      else skinDiffsOf d c rest) := by
  by_cases h : skinCondOf d c x = true
  · rw [if_pos h]
    simp only [skinCondOf] at h
    simp only [skinDiffsOf, List.filterMap_cons, h, if_true]
  · have hf : skinCondOf d c x = false := Bool.eq_false_iff.mpr h
    rw [if_neg h]
    simp only [skinCondOf] at hf
    simp only [skinDiffsOf, List.filterMap_cons, hf, Bool.false_eq_true, if_false]

theorem skinCond_congr {d d2 c c2 : List (String × AttrMap)}
    (hd : itemRelB d d2 = true) (hc : itemRelB c c2 = true) (x : String) :
    skinCondOf d c x = skinCondOf d2 c2 x := by
  simp only [skinCondOf]
  rw [deepDiff_congr (itemRel_getD hd x) (itemRel_getD hc x)]

theorem skinDiffs_congr {d d2 c c2 : List (String × AttrMap)}
    (hd : itemRelB d d2 = true) (hc : itemRelB c c2 = true) :
    ∀ names : List String,
      (skinDiffsOf d c names).flatMap YamlComparer.skin_diff_lines
          = (skinDiffsOf d2 c2 names).flatMap YamlComparer.skin_diff_lines
        ∧ (skinDiffsOf d c names).isEmpty = (skinDiffsOf d2 c2 names).isEmpty := by
  intro names
  induction names with
  | nil => exact ⟨rfl, rfl⟩
  | cons x rest ih =>
      have hrelT := itemRel_getD hd x
      have hrelC := itemRel_getD hc x
      have hdiff : deepDiff ((lookupY d x).getD []) ((lookupY c x).getD [])
          = deepDiff ((lookupY d2 x).getD []) ((lookupY c2 x).getD []) :=
        deepDiff_congr hrelT hrelC
      rw [skinDiffsOf_cons, skinDiffsOf_cons, skinCond_congr hd hc x]
      by_cases hb : skinCondOf d2 c2 x = true
      · rw [if_pos hb, if_pos hb]
        constructor
        · rw [List.flatMap_cons, List.flatMap_cons, hdiff,
            skin_diff_lines_congr x _ hrelT hrelC, ih.1]
        · simp
      · rw [if_neg hb, if_neg hb]
        exact ih

theorem extBody_congr {d d2 c c2 : List (String × AttrMap)}
    (hd : itemRelB d d2 = true) (hc : itemRelB c c2 = true) : extBody d c = extBody d2 c2 := by
  simp only [extBody]
  rw [pairRel_keys hd, pairRel_keys hc, unique_ext_lines_congr "+" _ hd,
    unique_ext_lines_congr "-" _ hc, (extDiffs_congr hd hc _).1, (extDiffs_congr hd hc _).2]

theorem skinBody_congr {d d2 c c2 : List (String × AttrMap)}
    (hd : itemRelB d d2 = true) (hc : itemRelB c c2 = true) : skinBody d c = skinBody d2 c2 := by
  simp only [skinBody]
  rw [pairRel_keys hd, pairRel_keys hc, (skinDiffs_congr hd hc _).1, (skinDiffs_congr hd hc _).2]

theorem compare_extensions_congr {ts ts2 cs cs2 : List Item}
    (hts : itemsRelB ts ts2 = true) (hcs : itemsRelB cs cs2 = true) :
    YamlComparer.compare_extensions ts cs = YamlComparer.compare_extensions ts2 cs2 := by
  rw [compare_extensions_eq_body, compare_extensions_eq_body]
  exact extBody_congr (flattenItems_rel hts) (flattenItems_rel hcs)

theorem compare_skins_congr {ts ts2 cs cs2 : List Item}
    (hts : itemsRelB ts ts2 = true) (hcs : itemsRelB cs cs2 = true) :
    YamlComparer.compare_skins ts cs = YamlComparer.compare_skins ts2 cs2 := by
  rw [compare_skins_eq_body, compare_skins_eq_body]
  exact skinBody_congr (flattenItems_rel hts) (flattenItems_rel hcs)

theorem items_flatMap_congr {β : Type} (f : Item → List β)
    (hf : ∀ {i j : Item}, itemRelB i j = true → f i = f j) :
    ∀ {l l2 : List Item}, itemsRelB l l2 = true → l.flatMap f = l2.flatMap f := by
  intro l
  induction l with
  | nil => intro l2 h; cases l2 with
      | nil => rfl
      | cons j rest2 => simp [itemsRelB] at h
  | cons i rest ih =>
      intro l2 h
      cases l2 with
      | nil => simp [itemsRelB] at h
      | cons j rest2 =>
          rw [itemsRelB] at h
          have h1 := Bool.and_eq_true_iff.mp h
          rw [List.flatMap_cons, List.flatMap_cons, hf h1.1, ih h1.2]

theorem composer_item_congr : ∀ {i j : Item}, itemRelB i j = true →
    i.filterMap (fun p => if stepsHasComposerUpdate p.2 then some (pyLower p.1) else none)
      = j.filterMap (fun p => if stepsHasComposerUpdate p.2 then some (pyLower p.1) else none) := by
  intro i
  induction i with
  | nil => intro j h; cases j with
      | nil => rfl
      | cons q rest2 => simp [itemRelB, pairRelB] at h
  | cons pr rest ih =>
      intro j h
      obtain ⟨k, v⟩ := pr
      cases j with
      | nil => simp [itemRelB, pairRelB] at h
      | cons q rest2 =>
          obtain ⟨l, w⟩ := q
          rw [itemRelB, pairRelB] at h
          have h1 := Bool.and_eq_true_iff.mp h
          have h2 := Bool.and_eq_true_iff.mp h1.1
          have hk : k = l := beq_iff_eq.mp h2.1
          subst hk
          rw [List.filterMap_cons, List.filterMap_cons]
          have hcu : stepsHasComposerUpdate v = stepsHasComposerUpdate w := stepsHasCU_eq h2.2
          rw [hcu, ih h1.2]

theorem repo_item_congr : ∀ {i j : Item}, itemRelB i j = true →
    repoUrlsOfItem i = repoUrlsOfItem j := by
  intro i
  induction i with
  | nil => intro j h; cases j with
      | nil => rfl
      | cons q rest2 => simp [itemRelB, pairRelB] at h
  | cons pr rest ih =>
      intro j h
      obtain ⟨k, v⟩ := pr
      cases j with
      | nil => simp [itemRelB, pairRelB] at h
      | cons q rest2 =>
          obtain ⟨l, w⟩ := q
          rw [itemRelB, pairRelB] at h
          have h1 := Bool.and_eq_true_iff.mp h
          have h2 := Bool.and_eq_true_iff.mp h1.1
          rw [repoUrlsOfItem, repoUrlsOfItem, List.filterMap_cons, List.filterMap_cons,
            attrRel_lookup_eq h2.2 "repository" (by decide)]
          have := ih h1.2
          rw [repoUrlsOfItem, repoUrlsOfItem] at this
          rw [this]

theorem itemsRel_append : ∀ {a a2 : List Item}, itemsRelB a a2 = true →
    ∀ {b b2 : List Item}, itemsRelB b b2 = true → itemsRelB (a ++ b) (a2 ++ b2) = true := by
  intro a
  induction a with
  | nil => intro a2 h; cases a2 with
      | nil => intro b b2 hb; exact hb
      | cons j rest2 => simp [itemsRelB] at h
  | cons i rest ih =>
      intro a2 h
      cases a2 with
      | nil => simp [itemsRelB] at h
      | cons j rest2 =>
          rw [itemsRelB] at h
          have h1 := Bool.and_eq_true_iff.mp h
          intro b b2 hb
          rw [List.cons_append, List.cons_append, itemsRelB]
          simp only [h1.1, ih h1.2 hb, Bool.and_self]

theorem canasta_composer_congr {cs cs2 : List Item} (h : itemsRelB cs cs2 = true) :
    YamlComparer.canasta_composer_packages cs = YamlComparer.canasta_composer_packages cs2 := by
  rw [YamlComparer.canasta_composer_packages, YamlComparer.canasta_composer_packages]
  exact items_flatMap_congr _ (fun hij => composer_item_congr hij) h

theorem compare_packages_congr (tp : List (List (String × Yaml))) {cs cs2 : List Item}
    (h : itemsRelB cs cs2 = true) :
    YamlComparer.compare_packages tp cs = YamlComparer.compare_packages tp cs2 := by
  simp only [YamlComparer.compare_packages]
  rw [canasta_composer_congr h]

theorem compare_repositories_eq_body (tr : List (List (String × Yaml))) (c : ConfigTree) :
    YamlComparer.compare_repositories tr c
      = repoBody tr ((c.extensions ++ c.skins).flatMap repoUrlsOfItem) := rfl

theorem compare_repositories_congr (tr : List (List (String × Yaml))) {c c2 : ConfigTree}
    (hext : itemsRelB c.extensions c2.extensions = true)
    (hsk : itemsRelB c.skins c2.skins = true) :
    YamlComparer.compare_repositories tr c = YamlComparer.compare_repositories tr c2 := by
  rw [compare_repositories_eq_body, compare_repositories_eq_body,
    items_flatMap_congr repoUrlsOfItem (fun hij => repo_item_congr hij)
      (itemsRel_append hext hsk)]

theorem treeRel_elim {t t2 : ConfigTree} (h : treeRelB t t2 = true) :
    itemsRelB t.extensions t2.extensions = true ∧ itemsRelB t.skins t2.skins = true
      ∧ t.packages = t2.packages ∧ t.repositories = t2.repositories := by
  rw [treeRelB] at h
  have h1 := Bool.and_eq_true_iff.mp h
  have h2 := Bool.and_eq_true_iff.mp h1.1
  have h3 := Bool.and_eq_true_iff.mp h2.1
  exact ⟨h3.1, h3.2, of_decide_eq_true h2.2, of_decide_eq_true h1.2⟩

theorem compare_lines_congr {t t2 c c2 : ConfigTree} (r1 r2 : String) (mw : Option String)
    (h1 : treeRelB t t2 = true) (h2 : treeRelB c c2 = true) :
    YamlComparer.compare_lines t c r1 r2 mw = YamlComparer.compare_lines t2 c2 r1 r2 mw := by
  obtain ⟨hte, hts, htp, htr⟩ := treeRel_elim h1
  obtain ⟨hce, hcs, hcp, hcr⟩ := treeRel_elim h2
  simp only [YamlComparer.compare_lines]
  rw [compare_extensions_congr hte hce, compare_skins_congr hts hcs, htp, htr,
    compare_packages_congr _ hce, compare_repositories_congr _ hce hcs]

/-- C7: (1) replacing any additional-steps sequences by reorderings on either
side of the comparison (the treeRelB relation: identical trees except that
additional-steps list values may be permuted) leaves the full report
unchanged, so flagging and grouping are order-insensitive; and (2) lookup in
a flattened section resolves a duplicated name last-wins: it returns the
value of the last binding of the name across the concatenated source items. -/
theorem c7_steps_sets_and_last_wins :
    (∀ t t2 c c2 : ConfigTree, ∀ r1 r2 : String, ∀ mw : Option String,
        treeRelB t t2 = true → treeRelB c c2 = true →
        YamlComparer.compare_lines t c r1 r2 mw = YamlComparer.compare_lines t2 c2 r1 r2 mw)
    ∧ (∀ (items : List Item) (n : String),
        lookupY (flattenItems items) n
          = ((items.flatMap (fun i => i)).reverse.find? (fun p => p.1 == n)).map
              (fun p => p.2)) :=
  ⟨fun _ _ _ _ r1 r2 mw h1 h2 => compare_lines_congr r1 r2 mw h1 h2, flatten_last_wins⟩

/-- C7 witness: the order-insensitivity half applied to trees whose only
difference is the order of one additional-steps list, against an empty
reference tree; the relation hypotheses hold by computation. -/
theorem c7_witness :
    treeRelB
        { extensions := [[("E", [("additional steps",
            Yaml.list [.str "composer update", .str "x"])])]] }
        { extensions := [[("E", [("additional steps",
            Yaml.list [.str "x", .str "composer update"])])]] } = true
    ∧ YamlComparer.compare_lines
        { extensions := [[("E", [("additional steps",
            Yaml.list [.str "composer update", .str "x"])])]] }
        {} "r1" "r2" none
      = YamlComparer.compare_lines
        { extensions := [[("E", [("additional steps",
            Yaml.list [.str "x", .str "composer update"])])]] }
        {} "r1" "r2" none :=
  ⟨by decide,
    c7_steps_sets_and_last_wins.1 _ _ _ _ "r1" "r2" none (by decide) (by decide)⟩
